import Mathlib

/-!
# Vector over RawMemory (src/vector.h) and Optional (src/optional.h)

A shallow embedding of the growable array of `src/vector.h` and of the
single-slot container of `src/optional.h`.

* A block of raw storage is a list of cells; a cell is `none` while it is
  uninitialised (or after its object was destroyed) and `some x` while it holds
  a live object of value `x`.
* Addresses are natural numbers counted in units of `sizeof(T)`; `0` is
  `nullptr`.  `size_t` is `Nat`: a block never holds anywhere near `2^63`
  objects, so `size_ * 2` does not wrap.
* The address `operator new` hands out is the parameter `p` of every
  operation that may allocate.  The operations are modelled as they run when
  `operator new` grants the request and `n * sizeof(T)` does not wrap, which is
  how a block for a number of live objects is obtained.  Where the capacity
  asked for is the caller's (Reserve, Resize), `Vector.ReserveOn` and
  `Vector.ResizeOn` spell the allocation out over an `Allocator`: the size
  computed in `size_t`, and `std::bad_alloc`.
* The template argument `T` is described by an `ElemType`: which relocation
  the `if constexpr` picks, on which objects the copy constructor raises, and
  what a move leaves behind in its source.  Whether a copy raises depends on
  the object copied only.  Move construction and move assignment themselves
  do not raise.
* An operation ends either by returning or by letting an exception escape;
  `Outcome` records which, and the state of the vector left behind.
* `assert` is a check of debug builds.  The operations are modelled as they
  run when no assertion fails; `Vector.Resize` in addition takes a flag that
  switches the assertion of `RawMemory::operator[]` on and reports its failure.
* Two objects are the same object (`this == &rhs`) when the caller says so:
  the assignment operators take that test as a flag.
* A RawMemory carries the cells of its block.  Where it matters that two
  vectors own different blocks, a `Heap` maps each address to the block that
  lives there, and a vector's storage is read through its block address.
* Calls outside their preconditions are given a definite meaning so that every
  function is total: a write outside the block is dropped, a read of a raw
  cell yields a raw cell, and an inverted range makes a standard algorithm do
  nothing.  No confirmed property rests on these choices; they are only in
  force where the code itself leaves its preconditions.
-/

namespace Tools

/-- Properties of the element type `T` that the container depends on. -/
structure ElemType (α : Type) where
  /-- The compile-time condition
  `std::is_nothrow_move_constructible_v<T> || !std::is_copy_constructible_v<T>`. -/
  relocateByMove : Bool
  /-- Whether `T(const T&)` raises when copying an object of this value. -/
  copyThrows : α → Bool
  /-- Value left in the source object by a move construction or move assignment. -/
  movedFrom : α → α

/-- Storage cells of one block. -/
abbrev Cells (α : Type) := List (Option α)

/-- The class `RawMemory<T>`: base address, capacity, and the storage it points to. -/
structure RawMemory (α : Type) where
  buffer_ : Nat
  capacity_ : Nat
  cells : Cells α
  deriving DecidableEq

/-- The class `Vector<T>`. -/
structure Vector (α : Type) where
  data_ : RawMemory α
  size_ : Nat
  deriving DecidableEq

/-- How a member function ends: it returns `r`, or an exception leaves it.
`released` is the content of the local block `new_data` at the moment its
destructor hands it back to the heap during unwinding (`[]` when no local
block exists at that point). -/
inductive Outcome (α ρ : Type) where
  | returned (v : Vector α) (r : ρ)
  | raised (v : Vector α) (released : Cells α)
  deriving DecidableEq

variable {α : Type}

/-! ## RawMemory -/

/-- `RawMemory::Allocate(n)`: null for `n == 0`, else the fresh address `p`. -/
def RawMemory.Allocate (p n : Nat) : Nat :=
  if n ≠ 0 then p else 0

/-- `RawMemory() = default`. -/
def RawMemory.empty : RawMemory α :=
  { buffer_ := 0, capacity_ := 0, cells := [] }

/-- `explicit RawMemory(size_t capacity)` when `operator new` grants the
request and `capacity * sizeof(T)` does not wrap (`RawMemory.ofCapacityOn`
spells the allocation out). -/
def RawMemory.ofCapacity (p capacity : Nat) : RawMemory α :=
  { buffer_ := RawMemory.Allocate p capacity, capacity_ := capacity,
    cells := List.replicate capacity none }

/-- `RawMemory::Capacity()`. -/
def RawMemory.Capacity (m : RawMemory α) : Nat := m.capacity_

/-- `RawMemory::GetAddress()`. -/
def RawMemory.GetAddress (m : RawMemory α) : Nat := m.buffer_

/-- `RawMemory::operator+(offset)`. -/
def RawMemory.plus (m : RawMemory α) (offset : Nat) : Nat := m.buffer_ + offset

/-! ## Object lifetime primitives on cells -/

/-- Object read through a pointer to cell `i`. -/
def readCell (c : Cells α) (i : Nat) : Option α := c.getD i none

/-- `Vector::Destroy(buf)`: ends the lifetime of the object in cell `i`. -/
def Destroy (c : Cells α) (i : Nat) : Cells α := c.set i none

/-- `Vector::DestroyN(buf, n)` and `std::destroy_n(buf, n)`: destroys cells
`buf, buf+1, .., buf+n-1` in this order. -/
def DestroyN (c : Cells α) (buf : Nat) : Nat → Cells α
  | 0 => c
  | n + 1 => Destroy (DestroyN c buf n) (buf + n)

/-- Move construction `new (dst) T(std::move(*src))` or move assignment
`*dst = std::move(*src)` between two cells of the same block. -/
def moveCell (E : ElemType α) (c : Cells α) (src dst : Nat) : Cells α :=
  (c.set dst (readCell c src)).set src ((readCell c src).map E.movedFrom)

/-- `std::uninitialized_copy_n(src, n, dst)`: copy-constructs `dst[k]` from
`src[k]` for `k = 0, .., n-1`; when a copy raises, the objects it has built are
destroyed and the exception is passed on (`.error` carries the destination
cells at that moment). -/
def uninitialized_copy_n (E : ElemType α) (src : Cells α) :
    Nat → Cells α → Except (Cells α) (Cells α)
  | 0, dst => .ok dst
  | k + 1, dst =>
    match uninitialized_copy_n E src k dst with
    | .error d => .error d
    | .ok d =>
      match readCell src k with
      | some x => if E.copyThrows x then .error (DestroyN d 0 k) else .ok (d.set k (some x))
      | none => .ok (d.set k none)

/-- `std::uninitialized_move_n(src, n, dst)`: move-constructs `dst[k]` from
`src[k]` for `k = 0, .., n-1`; returns the source and destination cells. -/
def uninitialized_move_n (E : ElemType α) :
    Nat → Cells α → Cells α → Cells α × Cells α
  | 0, src, dst => (src, dst)
  | k + 1, src, dst =>
    let r := uninitialized_move_n E k src dst
    (r.1.set k ((readCell r.1 k).map E.movedFrom), r.2.set k (readCell r.1 k))

/-- The recurring block
`if constexpr (nothrow-move || !copyable) uninitialized_move_n(..) else uninitialized_copy_n(..)`
from offset 0 of the old block to offset 0 of the new one. -/
def relocate_n (E : ElemType α) (src : Cells α) (n : Nat) (dst : Cells α) :
    Except (Cells α) (Cells α × Cells α) :=
  if E.relocateByMove then .ok (uninitialized_move_n E n src dst)
  else
    match uninitialized_copy_n E src n dst with
    | .error d => .error d
    | .ok d => .ok (src, d)

/-- The loop of `std::move_backward(first, last, d_last)` after `n` steps remain:
`*(--d_last) = std::move(*(--last))`. -/
def move_backward_loop (E : ElemType α) : Nat → Nat → Nat → Cells α → Cells α
  | 0, _, _, c => c
  | n + 1, last, d_last, c =>
    move_backward_loop E n (last - 1) (d_last - 1) (moveCell E c (last - 1) (d_last - 1))

/-- `std::move_backward(first, last, d_last)` on offsets into one block.  The
number of assignments is `last - first`; for an inverted range (`first > last`)
no assignment is performed, as in the counting loop libstdc++ uses for
random-access iterators. -/
def move_backward (E : ElemType α) (c : Cells α) (first last d_last : Nat) : Cells α :=
  move_backward_loop E (last - first) last d_last c

/-- The loop of `std::move(first, last, d_first)` after `n` steps remain:
`*d_first++ = std::move(*first++)`. -/
def move_loop (E : ElemType α) : Nat → Nat → Nat → Cells α → Cells α
  | 0, _, _, c => c
  | n + 1, first, d_first, c =>
    move_loop E n (first + 1) (d_first + 1) (moveCell E c first d_first)

/-- `std::move(first, last, d_first)` on offsets into one block. -/
def std_move (E : ElemType α) (c : Cells α) (first last d_first : Nat) : Cells α :=
  move_loop E (last - first) first d_first c

/-! ## Vector -/

/-- `Vector() = default`. -/
def Vector.empty : Vector α :=
  { data_ := RawMemory.empty, size_ := 0 }

/-- `Vector::Size()`. -/
def Vector.Size (v : Vector α) : Nat := v.size_

/-- `Vector::Capacity()`. -/
def Vector.Capacity (v : Vector α) : Nat := v.data_.Capacity

/-- `Vector::begin()`. -/
def Vector.begin (v : Vector α) : Nat := v.data_.GetAddress

/-- `Vector::end()`. -/
def Vector.end_ (v : Vector α) : Nat := v.data_.plus v.size_

/-- `Vector::Reserve(t_new_capacity)`. -/
def Vector.Reserve (E : ElemType α) (p : Nat) (v : Vector α) (t_new_capacity : Nat) :
    Outcome α Unit :=
  if t_new_capacity ≤ v.data_.Capacity then .returned v ()
  else
    let new_data : RawMemory α := RawMemory.ofCapacity p t_new_capacity
    match relocate_n E v.data_.cells v.size_ new_data.cells with
    | .error d => .raised v d
    | .ok r =>
      -- std::destroy_n(data_.GetAddress(), size_); data_.Swap(new_data);
      -- the old block leaves with new_data
      .returned { data_ := { new_data with cells := r.2 }, size_ := v.size_ } ()

/-- The growth rule shared by PushBack, EmplaceBack and Emplace:
`new_size = size_ * 2; if (size_ == 0) new_size = 1;`. -/
def grownCapacity (size_ : Nat) : Nat :=
  if size_ = 0 then 1 else size_ * 2

/-- `Vector::EmplaceBack(args...)`.  `args` is `some x` when `T(args...)` builds
an object of value `x` and `none` when that constructor raises.  Returns the
address of the new element. -/
def Vector.EmplaceBack (E : ElemType α) (p : Nat) (v : Vector α) (args : Option α) :
    Outcome α Nat :=
  if v.size_ = v.Capacity then
    let new_data : RawMemory α := RawMemory.ofCapacity p (grownCapacity v.size_)
    match args with
    | none => .raised v new_data.cells
    | some x =>
      match relocate_n E v.data_.cells v.size_ (new_data.cells.set v.size_ (some x)) with
      | .error d => .raised v d
      | .ok r =>
        .returned { data_ := { new_data with cells := r.2 }, size_ := v.size_ + 1 }
          (new_data.plus v.size_)
  else
    match args with
    | none => .raised v []
    | some x =>
      .returned { data_ := { v.data_ with cells := v.data_.cells.set v.size_ (some x) },
                  size_ := v.size_ + 1 }
        (v.data_.plus v.size_)

/-- Forgets the returned value of an outcome. -/
def Outcome.void {ρ : Type} : Outcome α ρ → Outcome α Unit
  | .returned v _ => .returned v ()
  | .raised v d => .raised v d

/-- `Vector::PushBack(const T& value)`: as EmplaceBack, the new object being
copy-constructed from `value`. -/
def Vector.PushBack (E : ElemType α) (p : Nat) (v : Vector α) (value : α) : Outcome α Unit :=
  if v.size_ = v.Capacity then
    let new_data : RawMemory α := RawMemory.ofCapacity p (grownCapacity v.size_)
    -- CopyConstruct(&new_data[size_], value);
    if E.copyThrows value then .raised v new_data.cells
    else
      match relocate_n E v.data_.cells v.size_ (new_data.cells.set v.size_ (some value)) with
      | .error d => .raised v d
      | .ok r => .returned { data_ := { new_data with cells := r.2 }, size_ := v.size_ + 1 } ()
  else
    -- CopyConstruct(&data_[size_], value);
    if E.copyThrows value then .raised v []
    else
      .returned { data_ := { v.data_ with cells := v.data_.cells.set v.size_ (some value) },
                  size_ := v.size_ + 1 } ()

/-- `Vector::PushBack(T&& value)`: the new object is move-constructed from `value`. -/
def Vector.PushBackMove (E : ElemType α) (p : Nat) (v : Vector α) (value : α) :
    Outcome α Unit :=
  if v.size_ = v.Capacity then
    let new_data : RawMemory α := RawMemory.ofCapacity p (grownCapacity v.size_)
    match relocate_n E v.data_.cells v.size_ (new_data.cells.set v.size_ (some value)) with
    | .error d => .raised v d
    | .ok r => .returned { data_ := { new_data with cells := r.2 }, size_ := v.size_ + 1 } ()
  else
    .returned { data_ := { v.data_ with cells := v.data_.cells.set v.size_ (some value) },
                size_ := v.size_ + 1 } ()

/-- The second loop of the full case of Emplace,
`for (i = index; i < size_; ++i) new (new_data + i + 1) T(move-or-copy(*(data_ + i)))`,
with `n` iterations starting at `index`.  Returns old and new cells; `.error`
carries the new cells as they are when a copy raises (this loop undoes nothing). -/
def relocateTail (E : ElemType α) (index : Nat) :
    Nat → Cells α → Cells α → Except (Cells α) (Cells α × Cells α)
  | 0, src, dst => .ok (src, dst)
  | k + 1, src, dst =>
    match relocateTail E index k src dst with
    | .error d => .error d
    | .ok r =>
      if E.relocateByMove then
        .ok (r.1.set (index + k) ((readCell r.1 (index + k)).map E.movedFrom),
             r.2.set (index + k + 1) (readCell r.1 (index + k)))
      else
        match readCell r.1 (index + k) with
        | some x => if E.copyThrows x then .error r.2 else .ok (r.1, r.2.set (index + k + 1) (some x))
        | none => .ok (r.1, r.2.set (index + k + 1) none)

/-- First `try`/`catch` of the full case of Emplace: relocate `[0, index)`; the
handler destroys the inserted element and execution continues after it.
Returns old and new cells. -/
def emplaceHead (E : ElemType α) (src : Cells α) (index : Nat) (dst : Cells α) :
    Cells α × Cells α :=
  match relocate_n E src index dst with
  | .ok r => r
  | .error d => (src, Destroy d index)

/-- Second `try`/`catch` of the full case of Emplace: relocate `[index, size_)`
one cell to the right; the handler runs `DestroyN(new_data.GetAddress(), index)`
and execution continues after it.  Returns the new cells. -/
def emplaceTail (E : ElemType α) (src : Cells α) (index size_ : Nat) (dst : Cells α) : Cells α :=
  match relocateTail E index (size_ - index) src dst with
  | .ok r => r.2
  | .error d => DestroyN d 0 index

/-- `Vector::Emplace(pos, args...)`; `args` as for EmplaceBack.  Returns the
iterator `begin() + index`. -/
def Vector.Emplace (E : ElemType α) (p : Nat) (v : Vector α) (pos : Nat) (args : Option α) :
    Outcome α Nat :=
  let index := pos - v.begin
  if v.size_ = 0 then
    v.EmplaceBack E p args
  else if v.size_ = v.Capacity then
    let new_data : RawMemory α := RawMemory.ofCapacity p (grownCapacity v.size_)
    match args with
    | none => .raised v new_data.cells
    | some x =>
      let d0 := new_data.cells.set index (some x)
      let h := emplaceHead E v.data_.cells index d0
      let d2 := emplaceTail E h.1 index v.size_ h.2
      -- DestroyN(data_.GetAddress(), size_); data_.Swap(new_data);
      .returned { data_ := { new_data with cells := d2 }, size_ := v.size_ + 1 }
        (new_data.GetAddress + index)
  else
    match args with
    | none => .raised v []
    | some tmp =>
      -- new (data_ + size_) T(std::move(*(end() - 1)));
      let c1 := moveCell E v.data_.cells (v.size_ - 1) v.size_
      -- std::move_backward(it, end() - 1, end());
      let c2 := move_backward E c1 index (v.size_ - 1) v.size_
      -- data_[index] = std::move(tmp);
      let c3 := c2.set index (some tmp)
      .returned { data_ := { v.data_ with cells := c3 }, size_ := v.size_ + 1 }
        (v.begin + index)

/-- `Vector::Insert(pos, const T& value)`: `Emplace(pos, value)` builds the
object with the copy constructor. -/
def Vector.Insert (E : ElemType α) (p : Nat) (v : Vector α) (pos : Nat) (value : α) :
    Outcome α Nat :=
  v.Emplace E p pos (if E.copyThrows value then none else some value)

/-- `Vector::Insert(pos, T&& value)`: `Emplace(pos, std::forward<T>(value))`
builds the object with the move constructor. -/
def Vector.InsertMove (E : ElemType α) (p : Nat) (v : Vector α) (pos : Nat) (value : α) :
    Outcome α Nat :=
  v.Emplace E p pos (some value)

/-- `Vector::Erase(pos)`: returns the vector and the iterator `begin() + index`. -/
def Vector.Erase (E : ElemType α) (v : Vector α) (pos : Nat) : Vector α × Nat :=
  let index := pos - v.begin
  -- it = begin() + index + 1;  std::move(it, end(), begin() + index);
  let c1 := std_move E v.data_.cells (index + 1) v.size_ index
  -- Destroy(end() - 1);
  let c2 := Destroy c1 (v.size_ - 1)
  ({ data_ := { v.data_ with cells := c2 }, size_ := v.size_ - 1 }, v.begin + index)

/-! ## Sequences of calls -/

/-- A call of one of the inserting member functions; positions are given by
their index, the iterator passed being `begin() + index`. -/
inductive Op (α : Type) where
  | pushBack (value : α)
  | pushBackMove (value : α)
  | emplaceBack (args : Option α)
  | emplace (index : Nat) (args : Option α)
  | insert (index : Nat) (value : α)
  | insertMove (index : Nat) (value : α)

/-- The vector an outcome leaves behind. -/
def Outcome.state {ρ : Type} : Outcome α ρ → Vector α
  | .returned v _ => v
  | .raised v _ => v

/-- Performs one call; `p` is the address `operator new` would hand out. -/
def Vector.apply (E : ElemType α) (p : Nat) (v : Vector α) : Op α → Outcome α Unit
  | .pushBack x => v.PushBack E p x
  | .pushBackMove x => v.PushBackMove E p x
  | .emplaceBack a => (v.EmplaceBack E p a).void
  | .emplace i a => (v.Emplace E p (v.begin + i) a).void
  | .insert i x => (v.Insert E p (v.begin + i) x).void
  | .insertMove i x => (v.InsertMove E p (v.begin + i) x).void

/-- Performs the calls in order, as straight-line code does: the first
exception ends the run. -/
def Vector.applyAll (E : ElemType α) : Vector α → List (Nat × Op α) → Outcome α Unit
  | v, [] => .returned v ()
  | v, (p, op) :: rest =>
    match v.apply E p op with
    | .returned w _ => Vector.applyAll E w rest
    | .raised w d => .raised w d

/-- The vector after each of the calls, a caller that catches an exception
carrying on with the vector as the failed call left it. -/
def Vector.trace (E : ElemType α) : Vector α → List (Nat × Op α) → List (Vector α)
  | _, [] => []
  | v, (p, op) :: rest =>
    (v.apply E p op).state :: Vector.trace E (v.apply E p op).state rest

/-- The live range `[0, size_)` as stored. -/
def Vector.elems (v : Vector α) : Cells α := v.data_.cells.take v.size_

/-- The vector `v` is well formed and its elements are `xs`, in order: the
block has `capacity_` cells, and its first `size_` cells are live objects with
the values `xs`. -/
def Vector.Holds (v : Vector α) (xs : List α) : Prop :=
  v.data_.cells.length = v.data_.capacity_ ∧ v.size_ = xs.length ∧
    v.size_ ≤ v.data_.capacity_ ∧ v.elems = xs.map some

instance Vector.decidableHolds [DecidableEq α] (v : Vector α) (xs : List α) :
    Decidable (v.Holds xs) := by
  unfold Vector.Holds
  infer_instance

/-- No copy of one of the objects `xs` raises. -/
def CopiesSucceed (E : ElemType α) (xs : List α) : Prop :=
  ∀ x, x ∈ xs → E.copyThrows x = false

/-- What one inserting call may do to size, capacity and block address: an
exception leaves the vector as it was; a return adds one element, with the
grown capacity when the vector was full and with the same block otherwise. -/
def StepOK {ρ : Type} (v : Vector α) (o : Outcome α ρ) : Prop :=
  (∀ w d, o = .raised w d → w = v) ∧
  (∀ w r, o = .returned w r → w.size_ = v.size_ + 1 ∧
    (v.size_ = v.Capacity → w.Capacity = grownCapacity v.size_) ∧
    (v.size_ ≠ v.Capacity → w.Capacity = v.Capacity ∧ w.data_.buffer_ = v.data_.buffer_))

/-! ## Element types and vectors used as examples -/

/-- An integer-like element type: relocation by move, copies never raise, a
move leaves the source value as it was. -/
def intElem : ElemType Nat :=
  { relocateByMove := true, copyThrows := fun _ => false, movedFrom := fun x => x }

/-- An owning handle in the manner of `std::unique_ptr<int>`: `some n` owns the
integer `n`, `none` is the null handle.  Relocation is by move (the type is not
copyable), and a move leaves the null handle in its source. -/
def handleElem : ElemType (Option Nat) :=
  { relocateByMove := true, copyThrows := fun _ => false, movedFrom := fun _ => none }

/-- An element type relocated by copy whose copy constructor raises exactly on
the objects of value `bad`; a move leaves the source value as it was. -/
def throwingElem (bad : Nat) : ElemType Nat :=
  { relocateByMove := false, copyThrows := fun x => x == bad, movedFrom := fun x => x }

/-- The vector `{1, 2}` with capacity 2 (full), its block at address 100. -/
def fullPair : Vector Nat :=
  { data_ := { buffer_ := 100, capacity_ := 2, cells := [some 1, some 2] }, size_ := 2 }

/-- The vector `{1, 99, 2}` with capacity 4, its block at address 300. -/
def sampleThree : Vector Nat :=
  { data_ := { buffer_ := 300, capacity_ := 4, cells := [some 1, some 99, some 2, none] },
    size_ := 3 }

/-- The empty vector of integers after `Reserve(3)`, its block at address 100. -/
def reservedThree : Vector Nat :=
  { data_ := { buffer_ := 100, capacity_ := 3, cells := [none, none, none] }, size_ := 0 }

/-- A vector of handles holding the single handle `some 1`, with capacity 2
(not full), its block at address 100. -/
def handleOne : Vector (Option Nat) :=
  { data_ := { buffer_ := 100, capacity_ := 2, cells := [some (some 1), none] }, size_ := 1 }

/-! ## RawMemory and Vector: ownership transfer, construction, assignment, Resize -/

/-- `RawMemory(RawMemory&& other)`: the new object, and `other` as it is left. -/
def RawMemory.moveCtor (other : RawMemory α) : RawMemory α × RawMemory α :=
  ({ buffer_ := other.GetAddress, capacity_ := other.capacity_, cells := other.cells },
   { buffer_ := 0, capacity_ := 0, cells := [] })

/-- `RawMemory::operator=(RawMemory&& rhs)`: `*this` and `rhs` after
`buffer_ = std::move(rhs.buffer_); capacity_ = std::move(rhs.capacity_);`
(moving a pointer or a `size_t` copies it). -/
def RawMemory.moveAssign (_self rhs : RawMemory α) : RawMemory α × RawMemory α :=
  ({ buffer_ := rhs.buffer_, capacity_ := rhs.capacity_, cells := rhs.cells }, rhs)

/-- `RawMemory::Swap(other)`: `*this` and `other` afterwards. -/
def RawMemory.Swap (self other : RawMemory α) : RawMemory α × RawMemory α :=
  (other, self)

/-- `RawMemory::operator[](index)` with its `assert(index < capacity_)`: `debug`
tells whether assertions are compiled in; `none` is a failed assertion. -/
def RawMemory.index (debug : Bool) (m : RawMemory α) (index : Nat) : Option Nat :=
  if debug && !decide (index < m.capacity_) then none else some (m.buffer_ + index)

/-- `Vector(Vector&& other)`: the new vector, and `other` as it is left. -/
def Vector.moveCtor (other : Vector α) : Vector α × Vector α :=
  ({ data_ := (RawMemory.moveCtor other.data_).1, size_ := other.size_ },
   { data_ := (RawMemory.moveCtor other.data_).2, size_ := 0 })

/-- `Vector::Swap(other)`: `*this` and `other` afterwards. -/
def Vector.Swap (self other : Vector α) : Vector α × Vector α :=
  ({ data_ := (self.data_.Swap other.data_).1, size_ := other.size_ },
   { data_ := (self.data_.Swap other.data_).2, size_ := self.size_ })

/-- The loop of `std::uninitialized_value_construct_n(first, n)` for an element
type whose value-initialisation gives `d`. -/
def value_construct_loop (cs : Cells α) (first : Nat) (d : α) : Nat → Cells α
  | 0 => cs
  | k + 1 => (value_construct_loop cs first d k).set (first + k) (some d)

/-- `std::uninitialized_value_construct_n(first, n)`.  `dflt` is `some d` when
`T()` gives an object of value `d` and `none` when it raises; in the latter
case the first construction already fails, nothing has been built, and the
exception is passed on. -/
def uninitialized_value_construct_n (cs : Cells α) (first n : Nat) (dflt : Option α) :
    Except (Cells α) (Cells α) :=
  match dflt with
  | some d => .ok (value_construct_loop cs first d n)
  | none => if n = 0 then .ok cs else .error cs

/-- `Vector(const Vector& other)`; `.error` when a copy raises, carrying the
cells of the block of the unfinished vector as it is released. -/
def Vector.copyCtor (E : ElemType α) (p : Nat) (other : Vector α) :
    Except (Cells α) (Vector α) :=
  match uninitialized_copy_n E other.data_.cells other.size_
      (RawMemory.ofCapacity p other.size_ : RawMemory α).cells with
  | .error d => .error d
  | .ok d => .ok { data_ := { (RawMemory.ofCapacity p other.size_ : RawMemory α) with cells := d },
                   size_ := other.size_ }

/-- `Vector::Resize(new_size)`.  `dflt` as for `uninitialized_value_construct_n`;
`debug` tells whether the assertion of `RawMemory::operator[]` is compiled
in, and the result is `none` when that assertion fails. -/
def Vector.Resize (debug : Bool) (E : ElemType α) (p : Nat) (v : Vector α) (new_size : Nat)
    (dflt : Option α) : Option (Outcome α Unit) :=
  if new_size < v.size_ then
    -- DestroyN(&data_[new_size], size_ - new_size);
    match v.data_.index debug new_size with
    | none => none
    | some _ =>
      some (.returned
        { data_ := { v.data_ with cells := DestroyN v.data_.cells new_size (v.size_ - new_size) },
          size_ := new_size } ())
  else
    -- size_t size_buf = size_;  Reserve(new_size);
    match v.Reserve E p new_size with
    | .raised w d => some (.raised w d)
    | .returned w _ =>
      -- std::uninitialized_value_construct_n(&data_[size_buf], new_size - size_buf);
      match w.data_.index debug v.size_ with
      | none => none
      | some _ =>
        match uninitialized_value_construct_n w.data_.cells v.size_ (new_size - v.size_) dflt with
        | .error d => some (.raised { data_ := { w.data_ with cells := d }, size_ := w.size_ } [])
        | .ok d => some (.returned { data_ := { w.data_ with cells := d }, size_ := new_size } ())

/-- The loop `for (i = 0; i < n; ++i) *(data_ + i) = *(rhs.data_ + i);` of copy
assignments.  `assignThrows` tells on which source objects `T::operator=`
raises; the target of a failed assignment stays a live object. -/
def copy_assign_loop (assignThrows : α → Bool) (src : Cells α) :
    Nat → Cells α → Except (Cells α) (Cells α)
  | 0, dst => .ok dst
  | k + 1, dst =>
    match copy_assign_loop assignThrows src k dst with
    | .error d => .error d
    | .ok d =>
      match readCell src k with
      | some x => if assignThrows x then .error d else .ok (d.set k (some x))
      | none => .ok (d.set k none)

/-- The loop `for (i = first; i < first + n; ++i) CopyConstruct(data_ + i, *(rhs.data_ + i));`;
a copy that raises leaves what was built before it in place. -/
def copy_construct_loop (E : ElemType α) (src : Cells α) (first : Nat) :
    Nat → Cells α → Except (Cells α) (Cells α)
  | 0, dst => .ok dst
  | k + 1, dst =>
    match copy_construct_loop E src first k dst with
    | .error d => .error d
    | .ok d =>
      match readCell src (first + k) with
      | some x => if E.copyThrows x then .error d else .ok (d.set (first + k) (some x))
      | none => .ok (d.set (first + k) none)

/-- `Vector::operator=(const Vector& rhs)`; `same` is the test `this == &rhs`.
The outcome carries `*this`; `rhs` is `const` and stays as it is. -/
def Vector.CopyAssign (E : ElemType α) (assignThrows : α → Bool) (p : Nat)
    (self rhs : Vector α) (same : Bool) : Outcome α Unit :=
  if same then .returned self ()
  else if self.data_.Capacity < rhs.size_ then
    -- Vector<T> tmp(rhs); Swap(tmp);
    match Vector.copyCtor E p rhs with
    | .error d => .raised self d
    | .ok tmp => .returned (self.Swap tmp).1 ()
  else if rhs.size_ < self.size_ then
    match copy_assign_loop assignThrows rhs.data_.cells rhs.size_
        (DestroyN self.data_.cells rhs.size_ (self.size_ - rhs.size_)) with
    | .error d => .raised { data_ := { self.data_ with cells := d }, size_ := self.size_ } []
    | .ok d => .returned { data_ := { self.data_ with cells := d }, size_ := rhs.size_ } ()
  else
    match copy_assign_loop assignThrows rhs.data_.cells self.size_ self.data_.cells with
    | .error d => .raised { data_ := { self.data_ with cells := d }, size_ := self.size_ } []
    | .ok d1 =>
      match copy_construct_loop E rhs.data_.cells self.size_ (rhs.size_ - self.size_) d1 with
      | .error d => .raised { data_ := { self.data_ with cells := d }, size_ := self.size_ } []
      | .ok d2 => .returned { data_ := { self.data_ with cells := d2 }, size_ := rhs.size_ } ()

/-- `Vector::operator=(Vector&& rhs)`; `same` is the test `this == &rhs`.
Returns `*this` and `rhs` afterwards. -/
def Vector.MoveAssign (self rhs : Vector α) (same : Bool) : Vector α × Vector α :=
  if same then (self, rhs)
  else if self.data_.Capacity < rhs.size_ then
    -- Vector<T> tmp(std::move(rhs)); Swap(tmp);
    ((self.Swap (Vector.moveCtor rhs).1).1, (Vector.moveCtor rhs).2)
  else (self, rhs)

/-- The vector can be used and destroyed: the block has `capacity_` cells, the
size is within the capacity, and every cell of `[0, size_)` holds a live
object. -/
def Vector.Valid (v : Vector α) : Prop :=
  v.data_.cells.length = v.data_.capacity_ ∧ v.size_ ≤ v.data_.capacity_ ∧
    ∀ j, j < v.size_ → (readCell v.data_.cells j).isSome = true

instance Vector.decidableValid (v : Vector α) : Decidable v.Valid := by
  unfold Vector.Valid
  infer_instance

/-! ## The heap -/

/-- The heap: the block of cells that lives at each address (`none`: no block). -/
abbrev Heap (α : Type) := Nat → Option (Cells α)

/-- The storage of `v` is in the heap as `v` describes it: either `v` owns no
block, or the block at its address holds its cells. -/
def Heap.Has (H : Heap α) (v : Vector α) : Prop :=
  (v.data_.buffer_ = 0 ∧ v.data_.cells = []) ∨
  (v.data_.buffer_ ≠ 0 ∧ H v.data_.buffer_ = some v.data_.cells)

/-- The allocation side of the machine (`size_t` of 64 bits): `sizeof(T)`, and
the requests that `operator new` satisfies. -/
structure Allocator where
  /-- The value of `sizeof(T)`, at least 1. -/
  sizeOf : Nat
  /-- Whether `operator new(bytes)` returns a block; otherwise it raises
  `std::bad_alloc`. -/
  grants : Nat → Bool

/-- The argument `n * sizeof(T)` of `operator new` in `RawMemory::Allocate(n)`,
as computed in `size_t`. -/
def Allocator.bytes (A : Allocator) (n : Nat) : Nat :=
  (n * A.sizeOf) % 2 ^ 64

/-- The request for a block of `n` objects is one `operator new` satisfies in
full: `n * sizeof(T)` does not wrap in `size_t` and the request is granted. -/
def Allocator.Satisfies (A : Allocator) (n : Nat) : Prop :=
  0 < A.sizeOf ∧ n * A.sizeOf < 2 ^ 64 ∧ A.grants (A.bytes n) = true

instance Allocator.decidableSatisfies (A : Allocator) (n : Nat) :
    Decidable (A.Satisfies n) := by
  unfold Allocator.Satisfies
  infer_instance

/-- `explicit RawMemory(size_t capacity)` with `RawMemory::Allocate(capacity)`
spelled out: null for capacity 0; else `operator new(capacity * sizeof(T))`,
which either raises `std::bad_alloc` (`none`) or hands out the address `p` of
a block of that many bytes, in which `bytes / sizeof(T)` objects fit.
`capacity_` records the capacity asked for. -/
def RawMemory.ofCapacityOn (A : Allocator) (p capacity : Nat) : Option (RawMemory α) :=
  if capacity = 0 then some { buffer_ := 0, capacity_ := capacity, cells := [] }
  else if A.grants (A.bytes capacity) then
    some { buffer_ := p, capacity_ := capacity,
           cells := List.replicate (A.bytes capacity / A.sizeOf) none }
  else none

/-- `Vector::Reserve(t_new_capacity)` with the allocation of `new_data`
spelled out: a `std::bad_alloc` leaves the function before the vector is
touched. -/
def Vector.ReserveOn (A : Allocator) (E : ElemType α) (p : Nat) (v : Vector α)
    (t_new_capacity : Nat) : Outcome α Unit :=
  if t_new_capacity ≤ v.data_.Capacity then .returned v ()
  else
    match (RawMemory.ofCapacityOn A p t_new_capacity : Option (RawMemory α)) with
    | none => .raised v []
    | some new_data =>
      match relocate_n E v.data_.cells v.size_ new_data.cells with
      | .error d => .raised v d
      | .ok r =>
        .returned { data_ := { new_data with cells := r.2 }, size_ := v.size_ } ()

/-- `Vector::Resize(new_size)` with the allocation inside Reserve spelled out;
`debug` and `dflt` as for `Vector.Resize`. -/
def Vector.ResizeOn (debug : Bool) (A : Allocator) (E : ElemType α) (p : Nat) (v : Vector α)
    (new_size : Nat) (dflt : Option α) : Option (Outcome α Unit) :=
  if new_size < v.size_ then
    match v.data_.index debug new_size with
    | none => none
    | some _ =>
      some (.returned
        { data_ := { v.data_ with cells := DestroyN v.data_.cells new_size (v.size_ - new_size) },
          size_ := new_size } ())
  else
    match v.ReserveOn A E p new_size with
    | .raised w d => some (.raised w d)
    | .returned w _ =>
      match w.data_.index debug v.size_ with
      | none => none
      | some _ =>
        match uninitialized_value_construct_n w.data_.cells v.size_ (new_size - v.size_) dflt with
        | .error d => some (.raised { data_ := { w.data_ with cells := d }, size_ := w.size_ } [])
        | .ok d => some (.returned { data_ := { w.data_ with cells := d }, size_ := new_size } ())

/-- A machine with `sizeof(T) == 4` whose `operator new` satisfies requests of
up to `2^47` bytes. -/
def boundedHeap : Allocator :=
  { sizeOf := 4, grants := fun bytes => decide (bytes ≤ 2 ^ 47) }

/-! ## Runs of mutations over the heap -/

instance Heap.decidableHas [DecidableEq α] (H : Heap α) (v : Vector α) : Decidable (H.Has v) := by
  unfold Heap.Has
  infer_instance

/-- The class `Optional<T>`: the aligned storage `data_` (raw, or holding an
object) and the flag `is_initialized_`. -/
structure Optional (α : Type) where
  data_ : Option α
  is_initialized_ : Bool
  deriving DecidableEq

/-- The exception class `BadOptionalAccess`. -/
inductive BadOptionalAccess where
  | mk
  deriving DecidableEq

/-- `Optional() = default`. -/
def Optional.empty : Optional α :=
  { data_ := none, is_initialized_ := false }

/-- `Optional::HasValue()`. -/
def Optional.HasValue (o : Optional α) : Bool := o.is_initialized_

/-- `Optional::Value()`: raises `BadOptionalAccess` when the flag is not set,
else gives the object in the storage. -/
def Optional.Value (o : Optional α) : Except BadOptionalAccess (Option α) :=
  if o.is_initialized_ = false then .error BadOptionalAccess.mk else .ok o.data_

/-- `Optional::operator=(const T& value)`: copy-assigns over the held object or
copy-constructs into the raw storage; `none` when that copy raises. -/
def Optional.assign (E : ElemType α) (o : Optional α) (value : α) : Option (Optional α) :=
  if o.is_initialized_ then
    if E.copyThrows value then none
    else some { data_ := some value, is_initialized_ := o.is_initialized_ }
  else
    if E.copyThrows value then none
    else some { data_ := some value, is_initialized_ := true }

/-- `Optional::operator=(T&& rhs)`: move-assigns over the held object or
move-constructs into the raw storage. -/
def Optional.assignMove (o : Optional α) (rhs : α) : Optional α :=
  if o.is_initialized_ then { data_ := some rhs, is_initialized_ := o.is_initialized_ }
  else { data_ := some rhs, is_initialized_ := true }

/-- `Optional::Reset()`: destroys the held object if there is one and clears
the flag. -/
def Optional.Reset (o : Optional α) : Optional α :=
  { data_ := if o.is_initialized_ then none else o.data_, is_initialized_ := false }

/-- The vector `{7}` with capacity 1, its block at address 700. -/
def oneSeven : Vector Nat :=
  { data_ := { buffer_ := 700, capacity_ := 1, cells := [some 7] }, size_ := 1 }

theorem readCell_eq (cs : Cells α) (i : Nat) : readCell cs i = (cs[i]?).getD none := by
  simp [readCell, List.getD_eq_getElem?_getD]

theorem readCell_of_le (cs : Cells α) (j : Nat) (h : cs.length ≤ j) : readCell cs j = none := by
  simp [readCell_eq, List.getElem?_eq_none h]

theorem getElem?_of_lt (cs : Cells α) (j : Nat) (h : j < cs.length) :
    cs[j]? = some (readCell cs j) := by
  simp [readCell_eq, List.getElem?_eq_getElem h]

theorem readCell_set (cs : Cells α) (i j : Nat) (x : Option α) :
    readCell (cs.set i x) j = if i = j ∧ j < cs.length then x else readCell cs j := by
  by_cases hj : j < cs.length
  · by_cases hij : i = j
    · subst hij
      simp [readCell_eq, hj]
    · simp [readCell_eq, List.getElem?_set_ne hij, hij]
  · have h1 : (cs.set i x).length ≤ j := by simp; omega
    simp [readCell_of_le _ _ h1, readCell_of_le cs j (by omega), hj]

theorem cells_ext {cs ds : Cells α} (hl : cs.length = ds.length)
    (h : ∀ j, j < cs.length → readCell cs j = readCell ds j) : cs = ds := by
  apply List.ext_getElem?
  intro j
  by_cases hj : j < cs.length
  · rw [getElem?_of_lt cs j hj, getElem?_of_lt ds j (by omega), h j hj]
  · rw [List.getElem?_eq_none (by omega), List.getElem?_eq_none (by omega)]

theorem readCell_replicate (n j : Nat) : readCell (List.replicate n (none : Option α)) j = none := by
  simp [readCell_eq, List.getElem?_replicate]
  split_ifs <;> simp

theorem length_Destroy (cs : Cells α) (i : Nat) : (Destroy cs i).length = cs.length := by
  simp [Destroy]

theorem readCell_Destroy (cs : Cells α) (i j : Nat) :
    readCell (Destroy cs i) j = if i = j then none else readCell cs j := by
  unfold Destroy
  rw [readCell_set]
  by_cases hj : j < cs.length
  · simp [hj]
  · simp [hj, readCell_of_le cs j (by omega)]

theorem length_DestroyN (cs : Cells α) (buf n : Nat) : (DestroyN cs buf n).length = cs.length := by
  induction n with
  | zero => rfl
  | succ n ih => simp [DestroyN, length_Destroy, ih]

theorem readCell_DestroyN (cs : Cells α) (buf n j : Nat) :
    readCell (DestroyN cs buf n) j = if buf ≤ j ∧ j < buf + n then none else readCell cs j := by
  induction n with
  | zero =>
    have h0 : ¬ (buf ≤ j ∧ j < buf) := by omega
    simp [DestroyN, h0]
  | succ n ih =>
    simp only [DestroyN, readCell_Destroy, ih]
    split_ifs <;> first | rfl | omega

theorem holds_iff (v : Vector α) (xs : List α) :
    v.Holds xs ↔ v.data_.cells.length = v.data_.capacity_ ∧ v.size_ = xs.length ∧
      v.size_ ≤ v.data_.capacity_ ∧ ∀ j, j < v.size_ → readCell v.data_.cells j = xs[j]? := by
  unfold Vector.Holds Vector.elems
  constructor
  · rintro ⟨h1, h2, h3, h4⟩
    refine ⟨h1, h2, h3, ?_⟩
    intro j hj
    have := congrArg (fun l => l[j]?) h4
    simp only [List.getElem?_take, hj, if_true, List.getElem?_map] at this
    rw [readCell_eq, this]
    have hx : j < xs.length := by omega
    simp [List.getElem?_eq_getElem hx]
  · rintro ⟨h1, h2, h3, h4⟩
    refine ⟨h1, h2, h3, ?_⟩
    apply List.ext_getElem?
    intro j
    rw [List.getElem?_take, List.getElem?_map]
    by_cases hj : j < v.size_
    · rw [if_pos hj, getElem?_of_lt _ _ (by omega), h4 j hj]
      have hx : j < xs.length := by omega
      simp [List.getElem?_eq_getElem hx]
    · rw [if_neg hj, List.getElem?_eq_none (by omega)]
      rfl

theorem uninitialized_move_n_spec (E : ElemType α) (n : Nat) (src dst : Cells α) :
    (uninitialized_move_n E n src dst).1.length = src.length ∧
    (uninitialized_move_n E n src dst).2.length = dst.length ∧
    (∀ j, readCell (uninitialized_move_n E n src dst).1 j =
      if j < n then (readCell src j).map E.movedFrom else readCell src j) ∧
    (∀ j, readCell (uninitialized_move_n E n src dst).2 j =
      if j < n ∧ j < dst.length then readCell src j else readCell dst j) := by
  induction n with
  | zero => simp [uninitialized_move_n]
  | succ k ih =>
    obtain ⟨h1, h2, h3, h4⟩ := ih
    have hk : readCell (uninitialized_move_n E k src dst).1 k = readCell src k := by
      rw [h3]; simp
    refine ⟨by simp [uninitialized_move_n, h1], by simp [uninitialized_move_n, h2], ?_, ?_⟩
    · intro j
      simp only [uninitialized_move_n, readCell_set, h3, hk, h1]
      by_cases hj : j < src.length
      · split_ifs <;> first | rfl | omega | simp_all
      · rw [readCell_of_le src j (by omega)]
        split_ifs <;> simp_all
    · intro j
      simp only [uninitialized_move_n, readCell_set, h4, hk, h2]
      split_ifs <;> first | rfl | omega | simp_all

theorem uninitialized_copy_n_of_ok (E : ElemType α) (src : Cells α) (n : Nat) (dst ds : Cells α)
    (h : uninitialized_copy_n E src n dst = .ok ds) :
    ds.length = dst.length ∧
    ∀ j, readCell ds j = if j < n ∧ j < dst.length then readCell src j else readCell dst j := by
  induction n generalizing ds with
  | zero =>
    simp only [uninitialized_copy_n, Except.ok.injEq] at h
    subst h
    simp
  | succ k ih =>
    simp only [uninitialized_copy_n] at h
    cases hr : uninitialized_copy_n E src k dst with
    | error e => simp [hr] at h
    | ok d0 =>
      obtain ⟨hl, hrd⟩ := ih d0 hr
      simp only [hr] at h
      cases hx : readCell src k with
      | none =>
        simp only [hx, Except.ok.injEq] at h
        subst h
        refine ⟨by simp [hl], ?_⟩
        intro j
        simp only [readCell_set, hrd, hl]
        split_ifs <;> first | rfl | omega | simp_all
      | some x =>
        simp only [hx] at h
        by_cases hc : E.copyThrows x = true
        · simp [hc] at h
        · simp only [hc, Bool.false_eq_true, if_false, Except.ok.injEq] at h
          subst h
          refine ⟨by simp [hl], ?_⟩
          intro j
          simp only [readCell_set, hrd, hl]
          split_ifs <;> first | rfl | omega | simp_all

theorem uninitialized_copy_n_of_error (E : ElemType α) (src : Cells α) (n : Nat) (dst ds : Cells α)
    (h : uninitialized_copy_n E src n dst = .error ds) :
    ds.length = dst.length ∧
    ∃ k, k < n ∧ (∃ x, readCell src k = some x ∧ E.copyThrows x = true) ∧
      ∀ j, readCell ds j = if j < k then none else readCell dst j := by
  induction n generalizing ds with
  | zero => simp [uninitialized_copy_n] at h
  | succ k ih =>
    simp only [uninitialized_copy_n] at h
    cases hr : uninitialized_copy_n E src k dst with
    | error e =>
      simp only [hr, Except.error.injEq] at h
      subst h
      obtain ⟨hl, k0, hk0, hx, hrd⟩ := ih e hr
      exact ⟨hl, k0, by omega, hx, hrd⟩
    | ok d0 =>
      obtain ⟨hl, hrd⟩ := uninitialized_copy_n_of_ok E src k dst d0 hr
      simp only [hr] at h
      cases hx : readCell src k with
      | none => simp [hx] at h
      | some x =>
        simp only [hx] at h
        by_cases hc : E.copyThrows x = true
        · simp only [hc, if_true, Except.error.injEq] at h
          subst h
          refine ⟨by simp [length_DestroyN, hl], k, by omega, ⟨x, hx, hc⟩, ?_⟩
          intro j
          simp only [readCell_DestroyN, hrd]
          split_ifs <;> first | rfl | omega
        · simp [hc] at h

theorem relocate_n_of_ok (E : ElemType α) (src : Cells α) (n : Nat) (dst : Cells α)
    (r : Cells α × Cells α) (h : relocate_n E src n dst = .ok r) :
    r.2.length = dst.length ∧
    ∀ j, readCell r.2 j = if j < n ∧ j < dst.length then readCell src j else readCell dst j := by
  unfold relocate_n at h
  by_cases hm : E.relocateByMove = true
  · simp only [hm, if_true, Except.ok.injEq] at h
    subst h
    obtain ⟨_, h2, _, h4⟩ := uninitialized_move_n_spec E n src dst
    exact ⟨h2, h4⟩
  · simp only [hm, Bool.false_eq_true, if_false] at h
    cases hc : uninitialized_copy_n E src n dst with
    | error e => simp [hc] at h
    | ok ds =>
      simp only [hc, Except.ok.injEq] at h
      subst h
      exact uninitialized_copy_n_of_ok E src n dst ds hc

theorem relocate_n_of_error (E : ElemType α) (src : Cells α) (n : Nat) (dst ds : Cells α)
    (h : relocate_n E src n dst = .error ds) :
    E.relocateByMove = false ∧ ds.length = dst.length ∧
    ∃ k, k < n ∧ (∃ x, readCell src k = some x ∧ E.copyThrows x = true) ∧
      ∀ j, readCell ds j = if j < k then none else readCell dst j := by
  unfold relocate_n at h
  by_cases hm : E.relocateByMove = true
  · simp [hm] at h
  · simp only [hm, Bool.false_eq_true, if_false] at h
    cases hc : uninitialized_copy_n E src n dst with
    | ok d0 => simp [hc] at h
    | error e =>
      simp only [hc, Except.error.injEq] at h
      subst h
      exact ⟨by simpa using hm, uninitialized_copy_n_of_error E src n dst e hc⟩

theorem holds_read {v : Vector α} {xs : List α} (hv : v.Holds xs) (j : Nat) (hj : j < v.size_) :
    readCell v.data_.cells j = xs[j]? :=
  ((holds_iff v xs).1 hv).2.2.2 j hj

theorem holds_mem {v : Vector α} {xs : List α} (hv : v.Holds xs) (j : Nat) (hj : j < v.size_)
    (x : α) (hx : readCell v.data_.cells j = some x) : x ∈ xs := by
  rw [holds_read hv j hj] at hx
  exact List.mem_iff_getElem?.2 ⟨j, hx⟩

theorem relocate_n_ok (E : ElemType α) (v : Vector α) (xs : List α) (hv : v.Holds xs)
    (hok : CopiesSucceed E xs) (n : Nat) (hn : n ≤ v.size_) (dst : Cells α) :
    ∃ r, relocate_n E v.data_.cells n dst = .ok r := by
  cases hr : relocate_n E v.data_.cells n dst with
  | ok r => exact ⟨r, rfl⟩
  | error e =>
    obtain ⟨_, _, k, hk, ⟨x, hx, hc⟩, _⟩ := relocate_n_of_error E _ n dst e hr
    rw [hok x (holds_mem hv k (by omega) x hx)] at hc
    exact absurd hc (by simp)

theorem getElem?_concat (xs : List α) (x : α) (j : Nat) :
    (xs ++ [x])[j]? = if j < xs.length then xs[j]? else if j = xs.length then some x else none := by
  rw [List.getElem?_append]
  split_ifs with h1 h2
  · rfl
  · subst h2; simp
  · have : j - xs.length = (j - xs.length - 1) + 1 := by omega
    rw [this]; simp

theorem grownCapacity_gt (n : Nat) : n < grownCapacity n := by
  unfold grownCapacity
  split_ifs <;> omega

/-- Appending at the end of a grown copy: the state produced by the full
branch of PushBack and EmplaceBack holds the old elements followed by `x`. -/
theorem holds_grown (E : ElemType α) (p : Nat) (v : Vector α) (xs : List α) (x : α)
    (hv : v.Holds xs) (r : Cells α × Cells α)
    (hr : relocate_n E v.data_.cells v.size_
      ((RawMemory.ofCapacity p (grownCapacity v.size_) : RawMemory α).cells.set v.size_ (some x))
        = .ok r) :
    (Vector.mk { (RawMemory.ofCapacity p (grownCapacity v.size_) : RawMemory α) with cells := r.2 }
      (v.size_ + 1)).Holds (xs ++ [x]) := by
  obtain ⟨hl, hrd⟩ := relocate_n_of_ok E _ _ _ r hr
  obtain ⟨h1, h2, h3, h4⟩ := (holds_iff v xs).1 hv
  have hg := grownCapacity_gt v.size_
  rw [holds_iff]
  simp only [RawMemory.ofCapacity, List.length_set, List.length_replicate] at hl hrd ⊢
  refine ⟨hl, by simp [h2], by omega, ?_⟩
  intro j hj
  rw [hrd, getElem?_concat, readCell_set, readCell_replicate]
  simp only [List.length_replicate]
  by_cases hjs : j < v.size_
  · rw [if_pos ⟨hjs, by omega⟩, if_pos (by omega), h4 j hjs]
  · have : j = v.size_ := by omega
    subst this
    rw [if_neg (by omega), if_pos ⟨rfl, hg⟩, if_neg (by omega), if_pos h2]

/-- Appending in place: the state produced by the non-full branch. -/
theorem holds_append (v : Vector α) (xs : List α) (x : α) (hv : v.Holds xs)
    (hlt : v.size_ ≠ v.Capacity) :
    (Vector.mk { v.data_ with cells := v.data_.cells.set v.size_ (some x) }
      (v.size_ + 1)).Holds (xs ++ [x]) := by
  obtain ⟨h1, h2, h3, h4⟩ := (holds_iff v xs).1 hv
  have hlt' : v.size_ < v.data_.capacity_ := by
    simp only [Vector.Capacity, RawMemory.Capacity] at hlt; omega
  rw [holds_iff]
  refine ⟨by simp [h1], by simp [h2], by simp; omega, ?_⟩
  intro j hj
  simp only at hj
  simp only [readCell_set, getElem?_concat]
  by_cases hjs : j < v.size_
  · rw [if_neg (by omega), if_pos (by omega), h4 j hjs]
  · have : j = v.size_ := by omega
    subst this
    rw [if_pos ⟨rfl, by omega⟩, if_neg (by omega), if_pos h2]

theorem EmplaceBack_holds (E : ElemType α) (p : Nat) (v : Vector α) (xs : List α) (x : α)
    (hv : v.Holds xs) (hok : CopiesSucceed E xs) :
    ∃ w r, v.EmplaceBack E p (some x) = .returned w r ∧ w.Holds (xs ++ [x]) ∧
      r = w.begin + v.size_ := by
  unfold Vector.EmplaceBack
  by_cases hfull : v.size_ = v.Capacity
  · obtain ⟨r, hr⟩ := relocate_n_ok E v xs hv hok v.size_ (le_refl _)
      ((RawMemory.ofCapacity p (grownCapacity v.size_) : RawMemory α).cells.set v.size_ (some x))
    simp only [hfull.symm, if_true, hr]
    exact ⟨_, _, rfl, holds_grown E p v xs x hv r hr, rfl⟩
  · simp only [hfull, if_false]
    exact ⟨_, _, rfl, holds_append v xs x hv hfull, rfl⟩

theorem uninitialized_copy_n_ok_nothrow (E : ElemType α) (src : Cells α) (n : Nat)
    (dst ds : Cells α) (h : uninitialized_copy_n E src n dst = .ok ds) :
    ∀ j, j < n → ∀ x, readCell src j = some x → E.copyThrows x = false := by
  induction n generalizing ds with
  | zero => intro j hj; omega
  | succ k ih =>
    simp only [uninitialized_copy_n] at h
    cases hr : uninitialized_copy_n E src k dst with
    | error e => simp [hr] at h
    | ok d0 =>
      simp only [hr] at h
      intro j hj x hx
      by_cases hjk : j < k
      · exact ih d0 hr j hjk x hx
      · have : j = k := by omega
        subst this
        simp only [hx] at h
        by_cases hc : E.copyThrows x = true
        · simp [hc] at h
        · simpa using hc

/-- C4: when the vector is full and the constructor of the new element raises,
EmplaceBack lets the exception escape and leaves the vector exactly as it was
(same block, size, capacity and cells); the block allocated for the growth
goes back to the heap without any live object in it. -/
theorem emplaceBack_full_ctor_raises (E : ElemType α) (p : Nat) (v : Vector α)
    (hfull : v.Size = v.Capacity) :
    v.EmplaceBack E p none = .raised v (List.replicate (grownCapacity v.Size) none) := by
  simp only [Vector.Size] at hfull
  simp [Vector.EmplaceBack, hfull, RawMemory.ofCapacity, Vector.Size]

theorem emplaceBack_full_ctor_raises_witness :
    fullPair.Size
      = fullPair.Capacity ∧
    fullPair.EmplaceBack intElem 200 none
      = .raised fullPair
          (List.replicate (grownCapacity 2) none) :=
  ⟨rfl, emplaceBack_full_ctor_raises intElem 200 _ rfl⟩

/-- C7: on the copy path, when the copy of one of the elements raises while
`Reserve(n)` with `n > Capacity()` fills the new block, the exception escapes,
the vector is left exactly as it was, and the new block is handed back with
every object built in it destroyed (all of its `n` cells are raw). -/
theorem reserve_copy_raises (E : ElemType α) (p : Nat) (v : Vector α) (xs : List α) (n : Nat)
    (hv : v.Holds xs) (hn : v.Capacity < n) (hcopy : E.relocateByMove = false)
    (hbad : ∃ x, x ∈ xs ∧ E.copyThrows x = true) :
    v.Reserve E p n = .raised v (List.replicate n none) := by
  simp only [Vector.Capacity] at hn
  obtain ⟨h1, h2, h3, h4⟩ := (holds_iff v xs).1 hv
  simp only [Vector.Reserve, not_le.2 hn, if_false]
  cases hr : relocate_n E v.data_.cells v.size_ (RawMemory.ofCapacity p n : RawMemory α).cells with
  | ok r =>
    exfalso
    obtain ⟨x, hx, hc⟩ := hbad
    obtain ⟨j, hj⟩ := List.mem_iff_getElem?.1 hx
    have hjl : j < xs.length := by
      by_contra hcon
      rw [List.getElem?_eq_none (by omega)] at hj
      exact absurd hj (by simp)
    simp only [relocate_n, hcopy, Bool.false_eq_true, if_false] at hr
    cases hu : uninitialized_copy_n E v.data_.cells v.size_
        (RawMemory.ofCapacity p n : RawMemory α).cells with
    | error e => simp [hu] at hr
    | ok ds =>
      have := uninitialized_copy_n_ok_nothrow E _ _ _ ds hu j (by omega) x
        (by rw [h4 j (by omega), hj])
      rw [this] at hc
      exact absurd hc (by simp)
  | error ds =>
    obtain ⟨_, hl, k, _, _, hrd⟩ := relocate_n_of_error E _ _ _ ds hr
    simp only [RawMemory.ofCapacity, List.length_replicate] at hl hrd
    have : ds = List.replicate n none := by
      apply cells_ext (by simp [hl])
      intro j _
      rw [hrd, readCell_replicate]
      split_ifs <;> rfl
    simp [this]

theorem reserve_copy_raises_witness :
    fullPair.Holds [1, 2] ∧
    fullPair.Capacity < 5 ∧
    (throwingElem 2).relocateByMove = false ∧
    (∃ x, x ∈ [1, 2] ∧ (throwingElem 2).copyThrows x = true) ∧
    fullPair.Reserve (throwingElem 2) 200 5
      = .raised fullPair (List.replicate 5 none) :=
  ⟨by decide, by decide, rfl, ⟨2, by decide, rfl⟩,
   reserve_copy_raises (throwingElem 2) 200 _ [1, 2] 5 (by decide) (by decide) rfl
    ⟨2, by decide, rfl⟩⟩


/-! ## Capacity and block address -/

theorem stepOK_raised {ρ : Type} (v : Vector α) (d : Cells α) :
    StepOK v (Outcome.raised v d : Outcome α ρ) := by
  constructor
  · intro w d h
    injection h with h1 h2
    exact h1.symm
  · intro w r h
    cases h

theorem stepOK_grown {ρ : Type} (v : Vector α) (p : Nat) (cs : Cells α) (r : ρ)
    (hfull : v.size_ = v.Capacity) :
    StepOK v (Outcome.returned
      (Vector.mk { (RawMemory.ofCapacity p (grownCapacity v.size_) : RawMemory α) with cells := cs }
        (v.size_ + 1)) r) := by
  constructor
  · intro w d h
    cases h
  · intro w r h
    injection h with h1 h2
    subst h1
    exact ⟨rfl, fun _ => rfl, fun hne => absurd hfull hne⟩

theorem stepOK_inplace {ρ : Type} (v : Vector α) (cs : Cells α) (r : ρ)
    (hfull : v.size_ ≠ v.Capacity) :
    StepOK v (Outcome.returned (Vector.mk { v.data_ with cells := cs } (v.size_ + 1)) r) := by
  constructor
  · intro w d h
    cases h
  · intro w r h
    injection h with h1 h2
    subst h1
    exact ⟨rfl, fun he => absurd he hfull, fun _ => ⟨rfl, rfl⟩⟩

theorem stepOK_void {ρ : Type} (v : Vector α) (o : Outcome α ρ) (h : StepOK v o) :
    StepOK v o.void := by
  unfold StepOK at h ⊢
  cases o with
  | returned w r =>
    refine ⟨fun w' d h' => (by cases h'), fun w' r' h' => ?_⟩
    simp only [Outcome.void, Outcome.returned.injEq] at h'
    exact h.2 w' r (by rw [h'.1])
  | raised w d =>
    refine ⟨fun w' d' h' => ?_, fun w' r' h' => (by cases h')⟩
    simp only [Outcome.void, Outcome.raised.injEq] at h'
    exact h.1 w' d (by rw [h'.1])

theorem EmplaceBack_step (E : ElemType α) (p : Nat) (v : Vector α) (a : Option α) :
    StepOK v (v.EmplaceBack E p a) := by
  unfold Vector.EmplaceBack
  by_cases hfull : v.size_ = v.Capacity
  · rw [if_pos hfull]
    cases a with
    | none => exact stepOK_raised v _
    | some x =>
      simp only []
      split
      · exact stepOK_raised v _
      · exact stepOK_grown v p _ _ hfull
  · rw [if_neg hfull]
    cases a with
    | none => exact stepOK_raised v _
    | some x => exact stepOK_inplace v _ _ hfull

theorem PushBack_step (E : ElemType α) (p : Nat) (v : Vector α) (x : α) :
    StepOK v (v.PushBack E p x) := by
  unfold Vector.PushBack
  by_cases hfull : v.size_ = v.Capacity
  · rw [if_pos hfull]
    simp only []
    split
    · exact stepOK_raised v _
    · split
      · exact stepOK_raised v _
      · exact stepOK_grown v p _ _ hfull
  · rw [if_neg hfull]
    split
    · exact stepOK_raised v _
    · exact stepOK_inplace v _ _ hfull

theorem PushBackMove_step (E : ElemType α) (p : Nat) (v : Vector α) (x : α) :
    StepOK v (v.PushBackMove E p x) := by
  unfold Vector.PushBackMove
  by_cases hfull : v.size_ = v.Capacity
  · rw [if_pos hfull]
    simp only []
    split
    · exact stepOK_raised v _
    · exact stepOK_grown v p _ _ hfull
  · rw [if_neg hfull]
    exact stepOK_inplace v _ _ hfull

theorem Emplace_step (E : ElemType α) (p : Nat) (v : Vector α) (pos : Nat) (a : Option α) :
    StepOK v (v.Emplace E p pos a) := by
  unfold Vector.Emplace
  simp only []
  by_cases h0 : v.size_ = 0
  · rw [if_pos h0]
    exact EmplaceBack_step E p v a
  · rw [if_neg h0]
    by_cases hfull : v.size_ = v.Capacity
    · rw [if_pos hfull]
      cases a with
      | none => exact stepOK_raised v _
      | some x => exact stepOK_grown v p _ _ hfull
    · rw [if_neg hfull]
      cases a with
      | none => exact stepOK_raised v _
      | some x => exact stepOK_inplace v _ _ hfull

theorem apply_step (E : ElemType α) (p : Nat) (v : Vector α) (op : Op α) :
    StepOK v (v.apply E p op) := by
  cases op with
  | pushBack x => exact PushBack_step E p v x
  | pushBackMove x => exact PushBackMove_step E p v x
  | emplaceBack a => exact stepOK_void v _ (EmplaceBack_step E p v a)
  | emplace i a => exact stepOK_void v _ (Emplace_step E p v _ a)
  | insert i x => exact stepOK_void v _ (Emplace_step E p v _ _)
  | insertMove i x => exact stepOK_void v _ (Emplace_step E p v _ _)

theorem trace_invariant (E : ElemType α) (c b : Nat) (calls : List (Nat × Op α)) :
    ∀ (w : Vector α), w.Capacity = c → w.begin = b → w.size_ ≤ c →
      (∀ s, s ∈ w.trace E calls → s.Size ≤ c) →
      ∀ s, s ∈ w.trace E calls → s.Capacity = c ∧ s.begin = b := by
  induction calls with
  | nil =>
    intro w _ _ _ _ s hs
    simp [Vector.trace] at hs
  | cons call rest ih =>
    intro w hc hb hsz hall s hs
    obtain ⟨p, op⟩ := call
    simp only [Vector.trace, List.mem_cons] at hs hall
    have h1 : (w.apply E p op).state.Size ≤ c := hall _ (Or.inl rfl)
    have hstate : (w.apply E p op).state.Capacity = c ∧ (w.apply E p op).state.begin = b := by
      obtain ⟨hr, ho⟩ := apply_step E p w op
      cases happ : w.apply E p op with
      | raised u d =>
        rw [hr u d happ]
        exact ⟨hc, hb⟩
      | returned u r =>
        obtain ⟨hs1, hf, hn⟩ := ho u r happ
        rw [happ] at h1
        simp only [Outcome.state, Vector.Size] at h1 ⊢
        by_cases hfull : w.size_ = w.Capacity
        · omega
        · obtain ⟨h3, h4⟩ := hn hfull
          exact ⟨by rw [h3, hc], by simpa [Vector.begin, RawMemory.GetAddress, h4] using hb⟩
    rcases hs with hs | hs
    · rw [hs]; exact hstate
    · exact ih _ hstate.1 hstate.2 h1 (fun s hs => hall s (Or.inr hs)) s hs

/-- C8: after `Reserve(c)` with `c >= Capacity()` has returned, along every
sequence of PushBack / EmplaceBack / Insert / Emplace calls after each of which
`Size() <= c`, the capacity is `c` and the block is never replaced: `begin()`
stays the address it was right after the Reserve. -/
theorem reserve_then_insert_no_realloc (E : ElemType α) (p c : Nat) (v w : Vector α)
    (hv : v.Size ≤ v.Capacity) (hc : v.Capacity ≤ c)
    (hr : v.Reserve E p c = .returned w ())
    (calls : List (Nat × Op α)) (hsz : ∀ s, s ∈ w.trace E calls → s.Size ≤ c) :
    w.Capacity = c ∧ ∀ s, s ∈ w.trace E calls → s.Capacity = c ∧ s.begin = w.begin := by
  have hw : w.Capacity = c ∧ w.size_ ≤ c := by
    simp only [Vector.Size, Vector.Capacity, RawMemory.Capacity] at hv hc
    unfold Vector.Reserve at hr
    by_cases hle : c ≤ v.data_.Capacity
    · rw [if_pos hle] at hr
      injection hr with h1 _
      subst h1
      simp only [RawMemory.Capacity] at hle
      simp only [Vector.Capacity, RawMemory.Capacity]
      omega
    · rw [if_neg hle] at hr
      simp only [] at hr
      split at hr
      · cases hr
      · injection hr with h1 _
        subst h1
        simp only [RawMemory.Capacity] at hle
        exact ⟨rfl, by simp only []; omega⟩
  exact ⟨hw.1, trace_invariant E c w.begin calls w hw.1 rfl hw.2 hsz⟩


theorem reserve_then_insert_no_realloc_witness :
    (Vector.empty : Vector Nat).Size ≤ (Vector.empty : Vector Nat).Capacity ∧
    (Vector.empty : Vector Nat).Capacity ≤ 3 ∧
    (Vector.empty : Vector Nat).Reserve intElem 100 3
      = .returned reservedThree () ∧
    (∀ s, s ∈ reservedThree.trace intElem
        [(200, Op.pushBack 1), (300, Op.emplaceBack (some 2)), (400, Op.insert 1 9)] →
      s.Size ≤ 3) ∧
    reservedThree.Capacity = 3 ∧
    ∀ s, s ∈ reservedThree.trace intElem
        [(200, Op.pushBack 1), (300, Op.emplaceBack (some 2)), (400, Op.insert 1 9)] →
      s.Capacity = 3 ∧
        s.begin = reservedThree.begin :=
  ⟨by decide, by decide, by decide, by decide,
   reserve_then_insert_no_realloc intElem 100 3 Vector.empty _ (by decide) (by decide)
    (by decide) _ (by decide)⟩

/-! ## Erase -/

theorem length_moveCell (E : ElemType α) (cs : Cells α) (s t : Nat) :
    (moveCell E cs s t).length = cs.length := by
  simp [moveCell]

theorem readCell_moveCell (E : ElemType α) (cs : Cells α) (s t j : Nat) :
    readCell (moveCell E cs s t) j =
      if s = j ∧ j < cs.length then (readCell cs s).map E.movedFrom
      else if t = j ∧ j < cs.length then readCell cs s else readCell cs j := by
  unfold moveCell
  rw [readCell_set, readCell_set]
  simp only [List.length_set]

theorem length_move_loop (E : ElemType α) (n : Nat) :
    ∀ (first d_first : Nat) (cs : Cells α), (move_loop E n first d_first cs).length = cs.length := by
  induction n with
  | zero => intro _ _ _; rfl
  | succ n ih =>
    intro first d_first cs
    simp [move_loop, ih, length_moveCell]

/-- Effect of `std::move(first, last, d_first)` when `d_first = first - 1`: the
`n` cells after `d` each go one place down, and the last source cell keeps a
moved-from object. -/
theorem readCell_move_loop (E : ElemType α) (n : Nat) :
    ∀ (d : Nat) (cs : Cells α), d + n < cs.length → ∀ j,
      readCell (move_loop E n (d + 1) d cs) j =
        if d ≤ j ∧ j < d + n then readCell cs (j + 1)
        else if j = d + n ∧ 0 < n then (readCell cs j).map E.movedFrom
        else readCell cs j := by
  induction n with
  | zero =>
    intro d cs _ j
    have h1 : ¬ (d ≤ j ∧ j < d) := by omega
    simp [move_loop, h1]
  | succ n ih =>
    intro d cs hlen j
    simp only [move_loop]
    rw [ih (d + 1) (moveCell E cs (d + 1) d) (by rw [length_moveCell]; omega) j]
    simp only [readCell_moveCell]
    by_cases hj : j < cs.length
    · split_ifs <;> first | rfl | omega | (congr 1; omega) | (congr 2; omega)
    · rw [readCell_of_le cs j (by omega)]
      split_ifs <;> first | rfl | omega

/-- Effect of Erase at a dereferenceable position of a well-formed vector. -/
theorem Erase_holds (E : ElemType α) (v : Vector α) (xs : List α) (i : Nat)
    (hv : v.Holds xs) (hi : i < v.Size) :
    (v.Erase E (v.begin + i)).1.Holds (xs.eraseIdx i) ∧
    (v.Erase E (v.begin + i)).1.elems = (xs.eraseIdx i).map some ∧
    (v.Erase E (v.begin + i)).1.Size + 1 = v.Size ∧
    (v.Erase E (v.begin + i)).1.Capacity = v.Capacity ∧
    (v.Erase E (v.begin + i)).1.begin = v.begin ∧
    (v.Erase E (v.begin + i)).2 = (v.Erase E (v.begin + i)).1.begin + i := by
  simp only [Vector.Size] at hi
  obtain ⟨h1, h2, h3, h4⟩ := (holds_iff v xs).1 hv
  have hidx : v.begin + i - v.begin = i := by omega
  have hH : (v.Erase E (v.begin + i)).1.Holds (xs.eraseIdx i) := by
    rw [holds_iff]
    simp only [Vector.Erase, hidx, std_move, length_Destroy, length_move_loop]
    refine ⟨h1, ?_, by omega, ?_⟩
    · rw [List.length_eraseIdx, h2]
      simp [show i < xs.length by omega]
    · intro j hj
      rw [readCell_Destroy, if_neg (by omega),
        readCell_move_loop E _ i _ (by omega) j, List.getElem?_eraseIdx]
      by_cases hji : j < i
      · rw [if_neg (by omega), if_neg (by omega), if_pos hji, h4 j (by omega)]
      · rw [if_pos ⟨by omega, by omega⟩, if_neg hji, h4 (j + 1) (by omega)]
  refine ⟨hH, hH.2.2.2, ?_, rfl, rfl, ?_⟩
  · simp only [Vector.Erase, Vector.Size]; omega
  · simp only [Vector.Erase, hidx]
    rfl

/-- C10: on a well-formed vector with elements `xs`, `Erase(begin() + i)` with
`i < Size()` leaves exactly `xs` without its element at index `i`, the others
in their order; the size drops by exactly one, capacity and block stay as they
were (no reallocation), and the iterator returned is `begin() + i`. -/
theorem erase_spec (E : ElemType α) (v : Vector α) (xs : List α) (i : Nat)
    (hv : v.Holds xs) (hi : i < v.Size) :
    (v.Erase E (v.begin + i)).1.Holds (xs.eraseIdx i) ∧
    (v.Erase E (v.begin + i)).1.elems = (xs.eraseIdx i).map some ∧
    (v.Erase E (v.begin + i)).1.Size + 1 = v.Size ∧
    (v.Erase E (v.begin + i)).1.Capacity = v.Capacity ∧
    (v.Erase E (v.begin + i)).1.begin = v.begin ∧
    (v.Erase E (v.begin + i)).2 = (v.Erase E (v.begin + i)).1.begin + i :=
  Erase_holds E v xs i hv hi

theorem erase_spec_witness :
    sampleThree.Holds [1, 99, 2] ∧ 0 < sampleThree.Size ∧
    (sampleThree.Erase intElem (sampleThree.begin + 0)).1.Holds ([1, 99, 2].eraseIdx 0) ∧
    (sampleThree.Erase intElem (sampleThree.begin + 0)).1.elems
      = ([1, 99, 2].eraseIdx 0).map some ∧
    (sampleThree.Erase intElem (sampleThree.begin + 0)).1.Size + 1 = sampleThree.Size ∧
    (sampleThree.Erase intElem (sampleThree.begin + 0)).1.Capacity = sampleThree.Capacity ∧
    (sampleThree.Erase intElem (sampleThree.begin + 0)).1.begin = sampleThree.begin ∧
    (sampleThree.Erase intElem (sampleThree.begin + 0)).2
      = (sampleThree.Erase intElem (sampleThree.begin + 0)).1.begin + 0 :=
  ⟨by decide, by decide, erase_spec intElem sampleThree [1, 99, 2] 0 (by decide) (by decide)⟩

/-! ## Emplace -/

theorem length_move_backward_loop (E : ElemType α) (n : Nat) :
    ∀ (last d_last : Nat) (cs : Cells α),
      (move_backward_loop E n last d_last cs).length = cs.length := by
  induction n with
  | zero => intro _ _ _; rfl
  | succ n ih =>
    intro last d_last cs
    simp [move_backward_loop, ih, length_moveCell]

/-- Effect of `std::move_backward(first, last, d_last)` when `d_last = last + 1`:
the `n` cells before `last` each go one place up, and the first source cell
keeps a moved-from object. -/
theorem readCell_move_backward_loop (E : ElemType α) (n : Nat) :
    ∀ (last : Nat) (cs : Cells α), n ≤ last → last < cs.length → ∀ j,
      readCell (move_backward_loop E n last (last + 1) cs) j =
        if last - n < j ∧ j ≤ last then readCell cs (j - 1)
        else if j = last - n ∧ 0 < n then (readCell cs j).map E.movedFrom
        else readCell cs j := by
  induction n with
  | zero =>
    intro last cs _ _ j
    have h1 : ¬ (last < j ∧ j ≤ last) := by omega
    simp [move_backward_loop, h1]
  | succ n ih =>
    intro last cs hn hlen j
    simp only [move_backward_loop]
    have hd : last + 1 - 1 = last - 1 + 1 := by omega
    rw [hd, ih (last - 1) (moveCell E cs (last - 1) (last - 1 + 1)) (by omega)
      (by rw [length_moveCell]; omega) j]
    simp only [readCell_moveCell]
    by_cases hj : j < cs.length
    · split_ifs <;> first | rfl | omega | (congr 1; omega) | (congr 2; omega)
    · rw [readCell_of_le cs j (by omega)]
      split_ifs <;> first | rfl | omega

theorem getElem?_insert (xs : List α) (i : Nat) (x : α) (j : Nat) (hi : i ≤ xs.length) :
    (xs.take i ++ x :: xs.drop i)[j]? =
      if j < i then xs[j]? else if j = i then some x else xs[j - 1]? := by
  rw [List.getElem?_append]
  have hl : (xs.take i).length = i := by simp [hi]
  rw [hl]
  by_cases h1 : j < i
  · rw [if_pos h1, if_pos h1, List.getElem?_take, if_pos h1]
  · rw [if_neg h1, if_neg h1]
    by_cases h2 : j = i
    · subst h2; simp
    · rw [if_neg h2]
      have : j - i = (j - i - 1) + 1 := by omega
      rw [this, List.getElem?_cons_succ, List.getElem?_drop]
      congr 1
      omega

theorem length_insert (xs : List α) (i : Nat) (x : α) (hi : i ≤ xs.length) :
    (xs.take i ++ x :: xs.drop i).length = xs.length + 1 := by
  simp only [List.length_append, List.length_take, List.length_cons, List.length_drop]
  omega

/-- Inserting in place: the state produced by the non-full branch of Emplace
at an index before the end. -/
theorem holds_shifted (E : ElemType α) (v : Vector α) (xs : List α) (i : Nat) (x : α)
    (hv : v.Holds xs) (hi : i < v.size_) (hlt : v.size_ ≠ v.Capacity) (cs : Cells α)
    (hcs : cs = (move_backward E (moveCell E v.data_.cells (v.size_ - 1) v.size_) i
      (v.size_ - 1) v.size_).set i (some x)) :
    (Vector.mk { v.data_ with cells := cs } (v.size_ + 1)).Holds
      (xs.take i ++ x :: xs.drop i) := by
  subst hcs
  obtain ⟨h1, h2, h3, h4⟩ := (holds_iff v xs).1 hv
  have hlt' : v.size_ < v.data_.capacity_ := by
    simp only [Vector.Capacity, RawMemory.Capacity] at hlt; omega
  rw [holds_iff]
  simp only [List.length_set, move_backward, length_move_backward_loop, length_moveCell]
  refine ⟨h1, by rw [length_insert xs i x (by omega), h2], by omega, ?_⟩
  intro j hj
  have hs : v.size_ = v.size_ - 1 + 1 := by omega
  rw [readCell_set, getElem?_insert xs i x j (by omega)]
  simp only [length_move_backward_loop, length_moveCell]
  by_cases hji : j = i
  · subst hji
    rw [if_pos ⟨rfl, by omega⟩, if_neg (by omega), if_pos rfl]
  · rw [if_neg (by omega)]
    have hloop := readCell_move_backward_loop E (v.size_ - 1 - i) (v.size_ - 1)
      (moveCell E v.data_.cells (v.size_ - 1) v.size_) (by omega)
      (by rw [length_moveCell]; omega) j
    rw [← hs] at hloop
    rw [hloop]
    simp only [readCell_moveCell]
    by_cases hlt2 : j < i
    · rw [if_pos hlt2, ← h4 j (by omega)]
      split_ifs <;> first | rfl | omega
    · rw [if_neg hlt2, if_neg hji, ← h4 (j - 1) (by omega)]
      split_ifs <;> first | rfl | omega | (congr 1; omega)


theorem relocate_n_src (E : ElemType α) (src : Cells α) (n : Nat) (dst : Cells α)
    (r : Cells α × Cells α) (h : relocate_n E src n dst = .ok r) :
    r.1.length = src.length ∧ ∀ j, n ≤ j → readCell r.1 j = readCell src j := by
  unfold relocate_n at h
  by_cases hm : E.relocateByMove = true
  · simp only [hm, if_true, Except.ok.injEq] at h
    subst h
    obtain ⟨h1, _, h3, _⟩ := uninitialized_move_n_spec E n src dst
    refine ⟨h1, fun j hj => ?_⟩
    rw [h3, if_neg (by omega)]
  · simp only [hm, Bool.false_eq_true, if_false] at h
    cases hc : uninitialized_copy_n E src n dst with
    | error e => simp [hc] at h
    | ok ds =>
      simp only [hc, Except.ok.injEq] at h
      subst h
      exact ⟨rfl, fun _ _ => rfl⟩

theorem relocateTail_of_ok (E : ElemType α) (index n : Nat) (src dst : Cells α) :
    ∀ (r : Cells α × Cells α), relocateTail E index n src dst = .ok r →
      r.1.length = src.length ∧ r.2.length = dst.length ∧
      (∀ j, index + n ≤ j → readCell r.1 j = readCell src j) ∧
      (∀ j, readCell r.2 j =
        if index + 1 ≤ j ∧ j < index + 1 + n ∧ j < dst.length then readCell src (j - 1)
        else readCell dst j) := by
  induction n with
  | zero =>
    intro r h
    simp only [relocateTail, Except.ok.injEq] at h
    subst h
    refine ⟨rfl, rfl, fun _ _ => rfl, fun j => ?_⟩
    rw [if_neg (by omega)]
  | succ k ih =>
    intro r h
    simp only [relocateTail] at h
    cases hr : relocateTail E index k src dst with
    | error e => simp [hr] at h
    | ok r0 =>
      obtain ⟨hl1, hl2, hsrc, hdst⟩ := ih r0 hr
      have hk : readCell r0.1 (index + k) = readCell src (index + k) := hsrc _ (le_refl _)
      simp only [hr] at h
      by_cases hm : E.relocateByMove = true
      · simp only [hm, if_true, Except.ok.injEq] at h
        subst h
        refine ⟨by simp [hl1], by simp [hl2], fun j hj => ?_, fun j => ?_⟩
        · simp only [readCell_set]
          rw [if_neg (by omega), hsrc j (by omega)]
        · simp only [readCell_set, hdst, hk, hl2]
          split_ifs <;> first | rfl | omega | (congr 1; omega)
      · simp only [hm, Bool.false_eq_true, if_false] at h
        cases hx : readCell r0.1 (index + k) with
        | none =>
          simp only [hx, Except.ok.injEq] at h
          subst h
          refine ⟨hl1, by simp [hl2], fun j hj => hsrc j (by omega), fun j => ?_⟩
          simp only [readCell_set, hdst, hl2]
          rw [hk] at hx
          split_ifs <;> first | rfl | omega | (rw [← hx]; congr 1; omega)
        | some x =>
          simp only [hx] at h
          by_cases hc : E.copyThrows x = true
          · simp [hc] at h
          · simp only [hc, Bool.false_eq_true, if_false, Except.ok.injEq] at h
            subst h
            refine ⟨hl1, by simp [hl2], fun j hj => hsrc j (by omega), fun j => ?_⟩
            simp only [readCell_set, hdst, hl2]
            rw [hk] at hx
            split_ifs <;> first | rfl | omega | (rw [← hx]; congr 1; omega)

theorem relocateTail_of_error (E : ElemType α) (index n : Nat) (src dst : Cells α) :
    ∀ (ds : Cells α), relocateTail E index n src dst = .error ds →
      ∃ k, k < n ∧ ∃ x, readCell src (index + k) = some x ∧ E.copyThrows x = true := by
  induction n with
  | zero =>
    intro ds h
    simp [relocateTail] at h
  | succ k ih =>
    intro ds h
    simp only [relocateTail] at h
    cases hr : relocateTail E index k src dst with
    | error e =>
      obtain ⟨k0, hk0, hx⟩ := ih e hr
      exact ⟨k0, by omega, hx⟩
    | ok r0 =>
      obtain ⟨_, _, hsrc, _⟩ := relocateTail_of_ok E index k src dst r0 hr
      have hk : readCell r0.1 (index + k) = readCell src (index + k) := hsrc _ (le_refl _)
      simp only [hr] at h
      by_cases hm : E.relocateByMove = true
      · simp [hm] at h
      · simp only [hm, Bool.false_eq_true, if_false] at h
        cases hx : readCell r0.1 (index + k) with
        | none => simp [hx] at h
        | some x =>
          simp only [hx] at h
          by_cases hc : E.copyThrows x = true
          · exact ⟨k, by omega, x, by rw [← hk, hx], hc⟩
          · simp [hc] at h

/-- Inserting into a grown copy: the state produced by the full branch of
Emplace when no copy raises. -/
theorem holds_regrown (E : ElemType α) (p : Nat) (v : Vector α) (xs : List α) (i : Nat) (x : α)
    (hv : v.Holds xs) (hok : CopiesSucceed E xs) (hi : i ≤ v.size_) :
    (Vector.mk { (RawMemory.ofCapacity p (grownCapacity v.size_) : RawMemory α) with
        cells := emplaceTail E
          (emplaceHead E v.data_.cells i
            ((RawMemory.ofCapacity p (grownCapacity v.size_) : RawMemory α).cells.set i (some x))).1
          i v.size_
          (emplaceHead E v.data_.cells i
            ((RawMemory.ofCapacity p (grownCapacity v.size_) : RawMemory α).cells.set i (some x))).2 }
      (v.size_ + 1)).Holds (xs.take i ++ x :: xs.drop i) := by
  obtain ⟨h1, h2, h3, h4⟩ := (holds_iff v xs).1 hv
  have hg := grownCapacity_gt v.size_
  obtain ⟨r, hr⟩ := relocate_n_ok E v xs hv hok i hi
    ((RawMemory.ofCapacity p (grownCapacity v.size_) : RawMemory α).cells.set i (some x))
  obtain ⟨hrl, hrd⟩ := relocate_n_of_ok E _ _ _ r hr
  obtain ⟨hsl, hsd⟩ := relocate_n_src E _ _ _ r hr
  have hhead : emplaceHead E v.data_.cells i
      ((RawMemory.ofCapacity p (grownCapacity v.size_) : RawMemory α).cells.set i (some x)) = r := by
    simp only [emplaceHead, hr]
  rw [hhead]
  have htail : ∃ t, relocateTail E i (v.size_ - i) r.1 r.2 = .ok t := by
    cases ht : relocateTail E i (v.size_ - i) r.1 r.2 with
    | ok t => exact ⟨t, rfl⟩
    | error e =>
      obtain ⟨k, hk, y, hy, hc⟩ := relocateTail_of_error E i _ r.1 r.2 e ht
      rw [hsd _ (by omega)] at hy
      rw [hok y (holds_mem hv (i + k) (by omega) y hy)] at hc
      exact absurd hc (by simp)
  obtain ⟨t, ht⟩ := htail
  obtain ⟨_, htl, _, htd⟩ := relocateTail_of_ok E i _ r.1 r.2 t ht
  have hcells : emplaceTail E r.1 i v.size_ r.2 = t.2 := by
    simp only [emplaceTail, ht]
  rw [hcells, holds_iff]
  simp only [RawMemory.ofCapacity, List.length_set, List.length_replicate] at hrl hrd htl htd ⊢
  refine ⟨by rw [htl, hrl], by rw [length_insert xs i x (by omega), h2], by omega, ?_⟩
  intro j hj
  rw [htd, hrd, getElem?_insert xs i x j (by omega), readCell_set, readCell_replicate]
  simp only [List.length_replicate, hrl]
  by_cases hlt : j < i
  · rw [if_neg (by omega), if_pos ⟨hlt, by omega⟩, if_pos hlt, h4 j (by omega)]
  · by_cases hji : j = i
    · subst hji
      rw [if_neg (by omega), if_neg (by omega), if_pos ⟨rfl, by omega⟩, if_neg hlt, if_pos rfl]
    · rw [if_pos ⟨by omega, by omega, by omega⟩, if_neg hlt, if_neg hji, hsd _ (by omega),
        h4 (j - 1) (by omega)]

/-- Where Emplace is right: on a well-formed vector with elements `xs` none of
whose copies raises, `Emplace(begin() + i, args)` with `i <= Size()` returns the
iterator `begin() + i` of a vector holding `xs[0..i)`, the new element, then
`xs[i..)`, provided the vector is empty, or full, or `i < Size()`. -/
theorem emplace_holds (E : ElemType α) (p : Nat) (v : Vector α) (xs : List α) (i : Nat) (x : α)
    (hv : v.Holds xs) (hok : CopiesSucceed E xs) (hi : i ≤ v.Size)
    (hcase : v.Size = 0 ∨ v.Size = v.Capacity ∨ i < v.Size) :
    ∃ w, v.Emplace E p (v.begin + i) (some x) = .returned w (w.begin + i) ∧
      w.Holds (xs.take i ++ x :: xs.drop i) ∧ w.Size = v.Size + 1 := by
  simp only [Vector.Size] at hi hcase
  have hidx : v.begin + i - v.begin = i := by omega
  unfold Vector.Emplace
  simp only [hidx]
  by_cases h0 : v.size_ = 0
  · rw [if_pos h0]
    obtain ⟨w, r, hw, hh, hr⟩ := EmplaceBack_holds E p v xs x hv hok
    have hi0 : i = 0 := by omega
    have hxs : xs = [] := by
      have := hv.2.1
      rw [h0] at this
      exact List.length_eq_zero.1 this.symm
    subst hi0
    subst hxs
    refine ⟨w, ?_, by simpa using hh, ?_⟩
    · rw [hw, hr, h0]
    · simp only [Vector.Size]
      rw [hh.2.1]
      simp [h0]
  · rw [if_neg h0]
    by_cases hfull : v.size_ = v.Capacity
    · rw [if_pos hfull]
      exact ⟨_, rfl, holds_regrown E p v xs i x hv hok hi, rfl⟩
    · rw [if_neg hfull]
      have hlt : i < v.size_ := by
        rcases hcase with h | h | h
        · exact absurd h h0
        · exact absurd h hfull
        · exact h
      exact ⟨_, rfl, holds_shifted E v xs i x hv hlt hfull _ rfl, rfl⟩

theorem eraseIdx_insert (xs : List α) (i : Nat) (x : α) (hi : i ≤ xs.length) :
    (xs.take i ++ x :: xs.drop i).eraseIdx i = xs := by
  apply List.ext_getElem?
  intro j
  rw [List.getElem?_eraseIdx, getElem?_insert xs i x j hi, getElem?_insert xs i x (j + 1) hi]
  by_cases h : j < i
  · rw [if_pos h, if_pos h]
  · rw [if_neg h, if_neg (by omega), if_neg (by omega)]
    rfl

/-- Where erasing undoes inserting: under the conditions of `emplace_holds`,
`Erase` at the iterator returned by `Emplace` gives back a vector with the
elements `xs`. -/
theorem erase_emplace_holds (E : ElemType α) (p : Nat) (v : Vector α) (xs : List α) (i : Nat)
    (x : α) (hv : v.Holds xs) (hok : CopiesSucceed E xs) (hi : i ≤ v.Size)
    (hcase : v.Size = 0 ∨ v.Size = v.Capacity ∨ i < v.Size) :
    ∃ w r, v.Emplace E p (v.begin + i) (some x) = .returned w r ∧
      (w.Erase E r).1.Holds xs ∧ (w.Erase E r).1.Size = v.Size ∧
      (w.Erase E r).1.elems = v.elems := by
  obtain ⟨w, hw, hh, hs⟩ := emplace_holds E p v xs i x hv hok hi hcase
  obtain ⟨e1, e2, e3, _⟩ := Erase_holds E w _ i hh (by omega)
  rw [eraseIdx_insert xs i x (by rw [← hv.2.1]; exact hi)] at e1 e2
  refine ⟨w, _, hw, e1, by omega, ?_⟩
  rw [e2, hv.2.2.2]


/-! ## The defects of Emplace -/

/-- The scenario of the specification on integers: from empty, `PushBack(1)`,
`PushBack(2)`, `Insert` at index 1 of 99 gives `{1, 99, 2}`, and `Erase` at
index 0 then gives `{99, 2}`. -/
theorem scenario_insert_erase :
    ∃ w r, Vector.applyAll intElem Vector.empty
        [(50, Op.pushBack 1), (100, Op.pushBack 2)] = .returned fullPair () ∧
      fullPair.Insert intElem 300 (fullPair.begin + 1) 99 = .returned w r ∧
      w.elems = [some 1, some 99, some 2] ∧ r = w.begin + 1 ∧
      (w.Erase intElem (w.begin + 0)).1.elems = [some 99, some 2] :=
  ⟨_, _, by decide, rfl, by decide, by decide, by decide⟩

/-- C1: `Emplace(begin() + i, x)` should leave `v[0..i)`, `x`, `v[i..Size())`.
At `i == Size()` on a non-empty vector that is not full the code does not: it
move-constructs the last element into the free cell, gives `std::move_backward`
the inverted range `[end(), end() - 1)`, and then assigns the new value over
the cell that received the last element.  On a vector holding the one handle
`some 1` (capacity 2, built by `Reserve(2)` and `EmplaceBack`), emplacing
`some 2` at the end returns `begin() + 1` and leaves `{null, some 2}`: the
handle `some 1` is lost and a moved-from null handle stands in its place. -/
theorem emplace_at_end_not_full_loses_last :
    (Vector.empty : Vector (Option Nat)).Reserve handleElem 100 2
      = .returned (Vector.mk (RawMemory.mk 100 2 [none, none]) 0) () ∧
    (Vector.mk (RawMemory.mk 100 2 [none, none]) 0).EmplaceBack handleElem 0 (some (some 1))
      = .returned handleOne 100 ∧
    handleOne.Holds [some 1] ∧ 1 ≤ handleOne.Size ∧ handleOne.Size < handleOne.Capacity ∧
    handleOne.Emplace handleElem 200 (handleOne.begin + 1) (some (some 2))
      = .returned (Vector.mk (RawMemory.mk 100 2 [some none, some (some 2)]) 2) 101 ∧
    ¬ (Vector.mk (RawMemory.mk 100 2 [some none, some (some 2)]) 2).Holds
        ([some 1].take 1 ++ some 2 :: [some 1].drop 1) := by
  refine ⟨rfl, rfl, by decide, by decide, by decide, rfl, by decide⟩

/-- C2: erasing at index `i` what was inserted at index `i` should give back a
vector equal by value to the original.  After the insertion at `i == Size()`
into the non-full vector holding the one handle `some 1`, erasing at that index
leaves `{null}` and not `{some 1}`. -/
theorem erase_after_emplace_at_end_differs :
    ∃ w r, handleOne.Emplace handleElem 200 (handleOne.begin + 1) (some (some 2))
        = .returned w r ∧
      r = w.begin + 1 ∧
      (w.Erase handleElem r).1.elems = [some none] ∧
      handleOne.elems = [some (some 1)] ∧
      (w.Erase handleElem r).1.elems ≠ handleOne.elems :=
  ⟨_, _, rfl, by decide, by decide, by decide, by decide⟩

/-- C5: a copy that raises while the full branch of Insert relocates the
elements should escape to the caller and leave the vector as it was.  The two
handlers of the code do not rethrow.  On the full vector `{1, 2}` (built by
`Reserve(2)` and two `PushBack` of rvalues), inserting 99 at index 1: when the
copy of the element 1 (before the position) raises, the call returns
`begin() + 1` of a vector of size 3 and capacity 4 whose cells 0 and 1 are raw;
when the copy of the element 2 (after the position) raises, it returns a
vector of size 3 whose cells 0 and 2 are raw.  In both cases no exception
reaches the caller and the old contents are gone. -/
theorem insert_full_copy_failure_swallowed :
    (Vector.empty : Vector Nat).Reserve (throwingElem 1) 100 2
      = .returned (Vector.mk (RawMemory.mk 100 2 [none, none]) 0) () ∧
    Vector.applyAll (throwingElem 1) (Vector.mk (RawMemory.mk 100 2 [none, none]) 0)
        [(0, Op.pushBackMove 1), (0, Op.pushBackMove 2)] = .returned fullPair () ∧
    fullPair.Holds [1, 2] ∧ fullPair.Size = fullPair.Capacity ∧
    fullPair.Insert (throwingElem 1) 400 (fullPair.begin + 1) 99
      = .returned (Vector.mk (RawMemory.mk 400 4 [none, none, some 2, none]) 3) 401 ∧
    fullPair.Insert (throwingElem 2) 400 (fullPair.begin + 1) 99
      = .returned (Vector.mk (RawMemory.mk 400 4 [none, some 99, none, none]) 3) 401 := by
  refine ⟨rfl, rfl, by decide, by decide, rfl, rfl⟩

/-! ## Moves of RawMemory and Vector -/

/-- C16: move construction from `src` gives a vector with the block of `src`
(same address, same cells: nothing is copied), its size and its capacity, and
leaves `src` with size 0, capacity 0 and a null block address. -/
theorem move_construct_spec (src : Vector α) :
    (Vector.moveCtor src).1.begin = src.begin ∧
    (Vector.moveCtor src).1.data_.cells = src.data_.cells ∧
    (Vector.moveCtor src).1.elems = src.elems ∧
    (Vector.moveCtor src).1.Size = src.Size ∧
    (Vector.moveCtor src).1.Capacity = src.Capacity ∧
    (Vector.moveCtor src).2.Size = 0 ∧
    (Vector.moveCtor src).2.Capacity = 0 ∧
    (Vector.moveCtor src).2.data_.GetAddress = 0 ∧
    (Vector.moveCtor src).2.data_.cells = [] :=
  ⟨rfl, rfl, rfl, rfl, rfl, rfl, rfl, rfl, rfl⟩

/-- What the move constructor of RawMemory does, for comparison with the move
assignment: the source is left null with capacity 0. -/
theorem RawMemory.moveCtor_source (src : RawMemory α) :
    (RawMemory.moveCtor src).1.GetAddress = src.GetAddress ∧
    (RawMemory.moveCtor src).1.Capacity = src.Capacity ∧
    (RawMemory.moveCtor src).2.GetAddress = 0 ∧ (RawMemory.moveCtor src).2.Capacity = 0 :=
  ⟨rfl, rfl, rfl, rfl⟩

/-- The move assignment of RawMemory never changes its source. -/
theorem RawMemory.moveAssign_source (dst src : RawMemory α) :
    (RawMemory.moveAssign dst src).1.GetAddress = src.GetAddress ∧
    (RawMemory.moveAssign dst src).1.Capacity = src.Capacity ∧
    (RawMemory.moveAssign dst src).2 = src :=
  ⟨rfl, rfl, rfl⟩

/-- C18: after `dst = std::move(src)` on RawMemory the source should be left
null with capacity 0.  The code copies the address and the capacity and leaves
`src` as it was: with `dst` empty and `src` the block of capacity 2 at address
100, afterwards `dst` has address 100 and capacity 2, and `src` still has
address 100 and capacity 2, so the block has two owners. -/
theorem rawMemory_move_assign_keeps_source :
    (RawMemory.moveAssign (RawMemory.empty : RawMemory Nat) fullPair.data_).1.GetAddress = 100 ∧
    (RawMemory.moveAssign (RawMemory.empty : RawMemory Nat) fullPair.data_).1.Capacity = 2 ∧
    (RawMemory.moveAssign (RawMemory.empty : RawMemory Nat) fullPair.data_).2.GetAddress = 100 ∧
    (RawMemory.moveAssign (RawMemory.empty : RawMemory Nat) fullPair.data_).2.Capacity = 2 ∧
    (RawMemory.moveAssign (RawMemory.empty : RawMemory Nat) fullPair.data_).2.GetAddress ≠ 0 ∧
    (RawMemory.moveAssign (RawMemory.empty : RawMemory Nat) fullPair.data_).2.Capacity ≠ 0 := by
  refine ⟨rfl, rfl, rfl, rfl, by decide, by decide⟩

/-- C15: for distinct vectors, `dst = std::move(src)` with
`src.Size() > dst.Capacity()` leaves `dst` with the block, cells, size and
capacity `src` had and `src` with size 0, capacity 0 and no block; with
`src.Size() <= dst.Capacity()` it transfers nothing and leaves both vectors
as they were. -/
theorem move_assign_spec (dst src : Vector α) :
    (dst.Capacity < src.Size →
      (dst.MoveAssign src false).1 = src ∧
      (dst.MoveAssign src false).1.elems = src.elems ∧
      (dst.MoveAssign src false).1.Size = src.Size ∧
      (dst.MoveAssign src false).1.Capacity = src.Capacity ∧
      (dst.MoveAssign src false).2.Size = 0 ∧
      (dst.MoveAssign src false).2.Capacity = 0 ∧
      (dst.MoveAssign src false).2.data_.GetAddress = 0) ∧
    (src.Size ≤ dst.Capacity → dst.MoveAssign src false = (dst, src)) := by
  simp only [Vector.Size, Vector.Capacity]
  constructor
  · intro h
    have h1 : (dst.MoveAssign src false).1 = src := by
      simp [Vector.MoveAssign, h, Vector.Swap, RawMemory.Swap, Vector.moveCtor,
        RawMemory.moveCtor, RawMemory.GetAddress]
    have h2 : (dst.MoveAssign src false).2
        = { data_ := { buffer_ := 0, capacity_ := 0, cells := [] }, size_ := 0 } := by
      simp [Vector.MoveAssign, h, Vector.moveCtor, RawMemory.moveCtor]
    rw [h1, h2]
    exact ⟨rfl, rfl, rfl, rfl, rfl, rfl, rfl⟩
  · intro h
    simp [Vector.MoveAssign, not_lt.2 h]

theorem move_assign_spec_witness :
    ((reservedThree.Capacity < sampleThree.Size →
      (reservedThree.MoveAssign sampleThree false).1 = sampleThree ∧
      (reservedThree.MoveAssign sampleThree false).1.elems = sampleThree.elems ∧
      (reservedThree.MoveAssign sampleThree false).1.Size = sampleThree.Size ∧
      (reservedThree.MoveAssign sampleThree false).1.Capacity = sampleThree.Capacity ∧
      (reservedThree.MoveAssign sampleThree false).2.Size = 0 ∧
      (reservedThree.MoveAssign sampleThree false).2.Capacity = 0 ∧
      (reservedThree.MoveAssign sampleThree false).2.data_.GetAddress = 0) ∧
    (sampleThree.Size ≤ reservedThree.Capacity →
      reservedThree.MoveAssign sampleThree false = (reservedThree, sampleThree))) ∧
    sampleThree.Size ≤ reservedThree.Capacity ∧
    fullPair.Capacity < sampleThree.Size ∧
    (fullPair.MoveAssign sampleThree false).1 = sampleThree ∧
    (fullPair.MoveAssign sampleThree false).2.Capacity = 0 :=
  ⟨move_assign_spec reservedThree sampleThree, by decide, by decide,
   ((move_assign_spec fullPair sampleThree).1 (by decide)).1,
   ((move_assign_spec fullPair sampleThree).1 (by decide)).2.2.2.2.2.1⟩

/-! ## Optional -/

/-- C19: a default-constructed Optional has no value and `Value()` raises
`BadOptionalAccess`; after assigning `x` (by copy, the copy not raising, or by
move) to any Optional, empty or not, it has a value and `Value()` gives `x`;
after `Reset()` it has no value and `Value()` raises again; and `Value()`
raises exactly when `HasValue()` is false. -/
theorem optional_spec (E : ElemType α) (o : Optional α) (x : α)
    (hx : E.copyThrows x = false) :
    (Optional.empty : Optional α).HasValue = false ∧
    (Optional.empty : Optional α).Value = .error BadOptionalAccess.mk ∧
    (∃ o', o.assign E x = some o' ∧ o'.HasValue = true ∧ o'.Value = .ok (some x) ∧
      o'.Reset.HasValue = false ∧ o'.Reset.Value = .error BadOptionalAccess.mk) ∧
    ((o.assignMove x).HasValue = true ∧ (o.assignMove x).Value = .ok (some x)) ∧
    (o.Reset.HasValue = false ∧ o.Reset.Value = .error BadOptionalAccess.mk) ∧
    (o.Value = .error BadOptionalAccess.mk ↔ o.HasValue = false) := by
  refine ⟨rfl, rfl, ?_, ?_, ⟨rfl, rfl⟩, ?_⟩
  · refine ⟨{ data_ := some x, is_initialized_ := true }, ?_, rfl, rfl, rfl, rfl⟩
    cases hi : o.is_initialized_ <;> simp [Optional.assign, hi, hx]
  · cases hi : o.is_initialized_ <;> simp [Optional.assignMove, Optional.HasValue, Optional.Value, hi]
  · cases hi : o.is_initialized_ <;> simp [Optional.HasValue, Optional.Value, hi]

theorem optional_spec_witness :
    intElem.copyThrows 5 = false ∧
    (Optional.empty : Optional Nat).HasValue = false ∧
    (Optional.empty : Optional Nat).Value = .error BadOptionalAccess.mk ∧
    (∃ o', (Optional.mk (some 3) true).assign intElem 5 = some o' ∧ o'.HasValue = true ∧
      o'.Value = .ok (some 5) ∧
      o'.Reset.HasValue = false ∧ o'.Reset.Value = .error BadOptionalAccess.mk) ∧
    (((Optional.mk (some 3) true).assignMove 5).HasValue = true ∧
      ((Optional.mk (some 3) true).assignMove 5).Value = .ok (some 5)) ∧
    ((Optional.mk (some 3) true).Reset.HasValue = false ∧
      (Optional.mk (some 3) true).Reset.Value = .error BadOptionalAccess.mk) ∧
    ((Optional.mk (some 3) true).Value = .error BadOptionalAccess.mk
      ↔ (Optional.mk (some 3) true).HasValue = false) :=
  ⟨rfl, optional_spec intElem (Optional.mk (some 3) true) 5 rfl⟩


/-! ## Resize -/

theorem Reserve_capacity (E : ElemType α) (p : Nat) (v w : Vector α) (n : Nat) (r : Unit)
    (h : v.Reserve E p n = .returned w r) :
    w.data_.capacity_ = max v.data_.capacity_ n ∧ w.size_ = v.size_ := by
  unfold Vector.Reserve at h
  by_cases hle : n ≤ v.data_.Capacity
  · rw [if_pos hle] at h
    injection h with h1 _
    subst h1
    simp only [RawMemory.Capacity] at hle
    exact ⟨by omega, rfl⟩
  · rw [if_neg hle] at h
    simp only [] at h
    split at h
    · cases h
    · injection h with h1 _
      subst h1
      simp only [RawMemory.Capacity] at hle
      exact ⟨by simp only [RawMemory.ofCapacity]; omega, rfl⟩

/-- Effect of a returning Reserve on a well-formed vector. -/
theorem Reserve_holds (E : ElemType α) (p : Nat) (v : Vector α) (xs : List α) (n : Nat)
    (hv : v.Holds xs) (hok : CopiesSucceed E xs) :
    ∃ w, v.Reserve E p n = .returned w () ∧ w.Holds xs ∧
      w.data_.capacity_ = max v.data_.capacity_ n ∧ w.size_ = v.size_ := by
  by_cases hn : n ≤ v.data_.Capacity
  · refine ⟨v, by simp [Vector.Reserve, hn], hv, ?_, rfl⟩
    simp only [RawMemory.Capacity] at hn
    omega
  · obtain ⟨r, hr⟩ := relocate_n_ok E v xs hv hok v.size_ (le_refl _)
      (RawMemory.ofCapacity p n : RawMemory α).cells
    obtain ⟨hl, hrd⟩ := relocate_n_of_ok E _ _ _ r hr
    obtain ⟨h1, h2, h3, h4⟩ := (holds_iff v xs).1 hv
    simp only [RawMemory.Capacity] at hn
    have hw : (Vector.mk { (RawMemory.ofCapacity p n : RawMemory α) with cells := r.2 }
        v.size_).Holds xs := by
      rw [holds_iff]
      simp only [RawMemory.ofCapacity, List.length_replicate] at hl hrd ⊢
      refine ⟨hl, h2, by omega, ?_⟩
      intro j hj
      rw [hrd, if_pos ⟨hj, by omega⟩, h4 j hj]
    refine ⟨_, ?_, hw, ?_, rfl⟩
    · simp only [Vector.Reserve, RawMemory.Capacity, hn, if_false, hr]
    · simp only [RawMemory.ofCapacity]
      omega

theorem length_value_construct_loop (cs : Cells α) (first : Nat) (d : α) (n : Nat) :
    (value_construct_loop cs first d n).length = cs.length := by
  induction n with
  | zero => rfl
  | succ k ih => simp [value_construct_loop, ih]

theorem readCell_value_construct_loop (cs : Cells α) (first : Nat) (d : α) (n j : Nat) :
    readCell (value_construct_loop cs first d n) j =
      if first ≤ j ∧ j < first + n ∧ j < cs.length then some d else readCell cs j := by
  induction n with
  | zero =>
    rw [if_neg (by omega)]
    rfl
  | succ k ih =>
    simp only [value_construct_loop, readCell_set, ih, length_value_construct_loop]
    split_ifs <;> first | rfl | omega

theorem index_release (m : RawMemory α) (i : Nat) :
    m.index false i = some (m.buffer_ + i) := by
  simp [RawMemory.index]

theorem index_debug (m : RawMemory α) (i : Nat) :
    m.index true i = if i < m.capacity_ then some (m.buffer_ + i) else none := by
  simp only [RawMemory.index, Bool.true_and]
  by_cases h : i < m.capacity_ <;> simp [h]

/-- Effect of a Resize that is not stopped by an assertion on a well-formed
vector whose copies and value-initialisation do not raise. -/
theorem Resize_holds (E : ElemType α) (p : Nat) (v : Vector α) (xs : List α) (n : Nat) (d : α)
    (hv : v.Holds xs) (hok : CopiesSucceed E xs) :
    ∃ w, v.Resize false E p n (some d) = some (.returned w ()) ∧ w.size_ = n ∧
      w.data_.capacity_ = max v.data_.capacity_ n ∧
      w.Holds (xs.take n ++ List.replicate (n - v.size_) d) := by
  obtain ⟨h1, h2, h3, h4⟩ := (holds_iff v xs).1 hv
  unfold Vector.Resize
  by_cases hlt : n < v.size_
  · rw [if_pos hlt]
    simp only [index_release]
    refine ⟨_, rfl, rfl, by simp only []; omega, ?_⟩
    rw [holds_iff]
    simp only [length_DestroyN]
    refine ⟨h1, ?_, by omega, ?_⟩
    · simp only [List.length_append, List.length_take, List.length_replicate]
      omega
    · intro j hj
      rw [readCell_DestroyN, if_neg (by omega), h4 j (by omega),
        List.getElem?_append_left (by simp only [List.length_take]; omega),
        List.getElem?_take, if_pos hj]
  · rw [if_neg hlt]
    obtain ⟨w, hw, hwh, hwc, hws⟩ := Reserve_holds E p v xs n hv hok
    obtain ⟨g1, g2, g3, g4⟩ := (holds_iff w xs).1 hwh
    simp only [hw, index_release, uninitialized_value_construct_n]
    refine ⟨_, rfl, rfl, hwc, ?_⟩
    rw [holds_iff]
    simp only [length_value_construct_loop]
    refine ⟨g1, ?_, by omega, ?_⟩
    · simp only [List.length_append, List.length_take, List.length_replicate]
      omega
    · intro j hj
      rw [readCell_value_construct_loop, List.getElem?_append]
      simp only [List.length_take]
      by_cases hjs : j < v.size_
      · rw [if_neg (by omega), if_pos (by omega), g4 j (by omega), List.getElem?_take,
          if_pos (by omega)]
      · rw [if_pos ⟨by omega, by omega, by omega⟩, if_neg (by omega), List.getElem?_replicate,
          if_pos (by omega)]

/-- When the assertion of `operator[]` lets a Resize through, the call does
what it does without assertions. -/
theorem Resize_debug_eq (E : ElemType α) (p : Nat) (v : Vector α) (n : Nat) (dflt : Option α)
    (o : Outcome α Unit) (h : v.Resize true E p n dflt = some o) :
    v.Resize false E p n dflt = some o := by
  unfold Vector.Resize at h ⊢
  simp only [index_release, index_debug] at h ⊢
  by_cases hlt : n < v.size_
  · rw [if_pos hlt] at h ⊢
    split at h
    · cases h
    · exact h
  · rw [if_neg hlt] at h ⊢
    cases hr : v.Reserve E p n with
    | raised w d =>
      simp only [hr] at h ⊢
      exact h
    | returned w r =>
      simp only [hr] at h ⊢
      by_cases hc : v.size_ < w.data_.capacity_
      · simp only [hc, if_true] at h
        exact h
      · simp [hc] at h

/-- Where the assertion of `operator[]` stops Resize: on a vector with
`Size() <= Capacity()`, exactly when `n == Size() == Capacity()`. -/
theorem Resize_assertion_fails_iff (E : ElemType α) (p : Nat) (v : Vector α) (n : Nat)
    (dflt : Option α) (hv : v.Size ≤ v.Capacity) :
    v.Resize true E p n dflt = none ↔ (n = v.Size ∧ v.Size = v.Capacity) := by
  simp only [Vector.Size, Vector.Capacity, RawMemory.Capacity] at hv ⊢
  unfold Vector.Resize
  simp only [index_debug]
  by_cases hlt : n < v.size_
  · rw [if_pos hlt, if_pos (by omega)]
    simp only [reduceCtorEq, false_iff]
    omega
  · rw [if_neg hlt]
    cases hr : v.Reserve E p n with
    | raised w d =>
      simp only [reduceCtorEq, false_iff]
      intro hcon
      have hle : n ≤ v.data_.Capacity := by simp only [RawMemory.Capacity]; omega
      simp [Vector.Reserve, hle] at hr
    | returned w r =>
      obtain ⟨hc, _⟩ := Reserve_capacity E p v w n r hr
      simp only []
      by_cases hcap : v.size_ < w.data_.capacity_
      · rw [if_pos hcap]
        simp only []
        constructor
        · intro h
          split at h <;> cases h
        · intro h
          omega
      · rw [if_neg hcap]
        simp only [true_iff]
        omega

/-- C20: Resize should never fail the assertion `index < capacity_` of
`RawMemory::operator[]`.  It does for `n == Size() == Capacity()`: the branch
for `n >= Size()` evaluates `&data_[size_]` after a Reserve that changes
nothing, with an index equal to the capacity.  With assertions compiled in,
`Resize(2)` on the full vector `{1, 2}` and `Resize(0)` on the empty vector
both stop at the assertion, while without assertions both return the vector
as it was. -/
theorem resize_trips_assertion_when_full :
    fullPair.Size ≤ fullPair.Capacity ∧
    fullPair.Resize true intElem 500 2 (some 0) = none ∧
    fullPair.Resize false intElem 500 2 (some 0) = some (.returned fullPair ()) ∧
    (Vector.empty : Vector Nat).Size ≤ (Vector.empty : Vector Nat).Capacity ∧
    (Vector.empty : Vector Nat).Resize true intElem 500 0 (some 0) = none ∧
    (Vector.empty : Vector Nat).Resize false intElem 500 0 (some 0)
      = some (.returned Vector.empty ()) := by
  refine ⟨by decide, rfl, rfl, by decide, rfl, rfl⟩


/-! ## Copy construction and copy assignment -/

theorem copy_assign_loop_of_ok (asg : α → Bool) (src : Cells α) (n : Nat) (dst ds : Cells α)
    (h : copy_assign_loop asg src n dst = .ok ds) :
    ds.length = dst.length ∧
    ∀ j, readCell ds j = if j < n ∧ j < dst.length then readCell src j else readCell dst j := by
  induction n generalizing ds with
  | zero =>
    simp only [copy_assign_loop, Except.ok.injEq] at h
    subst h
    simp
  | succ k ih =>
    simp only [copy_assign_loop] at h
    cases hr : copy_assign_loop asg src k dst with
    | error e => simp [hr] at h
    | ok d0 =>
      obtain ⟨hl, hrd⟩ := ih d0 hr
      simp only [hr] at h
      cases hx : readCell src k with
      | none =>
        simp only [hx, Except.ok.injEq] at h
        subst h
        refine ⟨by simp [hl], ?_⟩
        intro j
        simp only [readCell_set, hrd, hl]
        split_ifs <;> first | rfl | omega | simp_all
      | some x =>
        simp only [hx] at h
        by_cases hc : asg x = true
        · simp [hc] at h
        · simp only [hc, Bool.false_eq_true, if_false, Except.ok.injEq] at h
          subst h
          refine ⟨by simp [hl], ?_⟩
          intro j
          simp only [readCell_set, hrd, hl]
          split_ifs <;> first | rfl | omega | simp_all

theorem copy_assign_loop_of_error (asg : α → Bool) (src : Cells α) (n : Nat) (dst ds : Cells α)
    (h : copy_assign_loop asg src n dst = .error ds) :
    ds.length = dst.length ∧
    ∃ k, k < n ∧ (∃ x, readCell src k = some x ∧ asg x = true) ∧
      ∀ j, readCell ds j = if j < k ∧ j < dst.length then readCell src j else readCell dst j := by
  induction n generalizing ds with
  | zero => simp [copy_assign_loop] at h
  | succ k ih =>
    simp only [copy_assign_loop] at h
    cases hr : copy_assign_loop asg src k dst with
    | error e =>
      simp only [hr, Except.error.injEq] at h
      subst h
      obtain ⟨hl, k0, hk0, hx, hrd⟩ := ih e hr
      exact ⟨hl, k0, by omega, hx, hrd⟩
    | ok d0 =>
      obtain ⟨hl, hrd⟩ := copy_assign_loop_of_ok asg src k dst d0 hr
      simp only [hr] at h
      cases hx : readCell src k with
      | none => simp [hx] at h
      | some x =>
        simp only [hx] at h
        by_cases hc : asg x = true
        · simp only [hc, if_true, Except.error.injEq] at h
          subst h
          exact ⟨hl, k, by omega, ⟨x, hx, hc⟩, hrd⟩
        · simp [hc] at h

theorem copy_construct_loop_of_ok (E : ElemType α) (src : Cells α) (first n : Nat)
    (dst ds : Cells α) (h : copy_construct_loop E src first n dst = .ok ds) :
    ds.length = dst.length ∧
    ∀ j, readCell ds j =
      if first ≤ j ∧ j < first + n ∧ j < dst.length then readCell src j else readCell dst j := by
  induction n generalizing ds with
  | zero =>
    simp only [copy_construct_loop, Except.ok.injEq] at h
    subst h
    refine ⟨rfl, fun j => ?_⟩
    rw [if_neg (by omega)]
  | succ k ih =>
    simp only [copy_construct_loop] at h
    cases hr : copy_construct_loop E src first k dst with
    | error e => simp [hr] at h
    | ok d0 =>
      obtain ⟨hl, hrd⟩ := ih d0 hr
      simp only [hr] at h
      cases hx : readCell src (first + k) with
      | none =>
        simp only [hx, Except.ok.injEq] at h
        subst h
        refine ⟨by simp [hl], ?_⟩
        intro j
        simp only [readCell_set, hrd, hl]
        split_ifs <;> first | rfl | omega | simp_all
      | some x =>
        simp only [hx] at h
        by_cases hc : E.copyThrows x = true
        · simp [hc] at h
        · simp only [hc, Bool.false_eq_true, if_false, Except.ok.injEq] at h
          subst h
          refine ⟨by simp [hl], ?_⟩
          intro j
          simp only [readCell_set, hrd, hl]
          split_ifs <;> first | rfl | omega | simp_all

theorem copy_construct_loop_of_error (E : ElemType α) (src : Cells α) (first n : Nat)
    (dst ds : Cells α) (h : copy_construct_loop E src first n dst = .error ds) :
    ds.length = dst.length ∧
    ∃ k, k < n ∧ (∃ x, readCell src (first + k) = some x ∧ E.copyThrows x = true) ∧
      ∀ j, readCell ds j =
        if first ≤ j ∧ j < first + k ∧ j < dst.length then readCell src j else readCell dst j := by
  induction n generalizing ds with
  | zero => simp [copy_construct_loop] at h
  | succ k ih =>
    simp only [copy_construct_loop] at h
    cases hr : copy_construct_loop E src first k dst with
    | error e =>
      simp only [hr, Except.error.injEq] at h
      subst h
      obtain ⟨hl, k0, hk0, hx, hrd⟩ := ih e hr
      exact ⟨hl, k0, by omega, hx, hrd⟩
    | ok d0 =>
      obtain ⟨hl, hrd⟩ := copy_construct_loop_of_ok E src first k dst d0 hr
      simp only [hr] at h
      cases hx : readCell src (first + k) with
      | none => simp [hx] at h
      | some x =>
        simp only [hx] at h
        by_cases hc : E.copyThrows x = true
        · simp only [hc, if_true, Except.error.injEq] at h
          subst h
          exact ⟨hl, k, by omega, ⟨x, hx, hc⟩, hrd⟩
        · simp [hc] at h

/-- Where a failed copy assignment keeps the basic guarantee: when `dst` is
not being shrunk (`dst.Size() <= src.Size()`), an exception leaves `dst` valid. -/
theorem CopyAssign_raised_valid (E : ElemType α) (asg : α → Bool) (p : Nat)
    (dst src w : Vector α) (d : Cells α) (same : Bool) (hd : dst.Valid) (hs : src.Valid)
    (hns : dst.size_ ≤ src.size_)
    (h : dst.CopyAssign E asg p src same = .raised w d) : w.Valid := by
  obtain ⟨h1, h2, h3⟩ := hd
  obtain ⟨g1, g2, g3⟩ := hs
  unfold Vector.CopyAssign at h
  by_cases hsame : same = true
  · simp [hsame] at h
  · simp only [hsame, Bool.false_eq_true, if_false, RawMemory.Capacity] at h
    by_cases hbig : dst.data_.capacity_ < src.size_
    · rw [if_pos hbig] at h
      split at h
      · injection h with e1 _
        subst e1
        exact ⟨h1, h2, h3⟩
      · cases h
    · rw [if_neg hbig, if_neg (by omega)] at h
      cases hr : copy_assign_loop asg src.data_.cells dst.size_ dst.data_.cells with
      | error e =>
        simp only [hr] at h
        injection h with e1 _
        subst e1
        obtain ⟨hl, k, hk, _, hrd⟩ := copy_assign_loop_of_error asg _ _ _ e hr
        refine ⟨by rw [hl, h1], h2, ?_⟩
        intro j hj
        simp only at hj ⊢
        rw [hrd]
        split_ifs
        · exact g3 j (by omega)
        · exact h3 j hj
      | ok d1 =>
        obtain ⟨hl1, hrd1⟩ := copy_assign_loop_of_ok asg _ _ _ d1 hr
        simp only [hr] at h
        cases hr2 : copy_construct_loop E src.data_.cells dst.size_ (src.size_ - dst.size_) d1 with
        | ok d2 => simp [hr2] at h
        | error e =>
          simp only [hr2] at h
          injection h with e1 _
          subst e1
          obtain ⟨hl2, k, hk, _, hrd2⟩ := copy_construct_loop_of_error E _ _ _ _ e hr2
          refine ⟨by rw [hl2, hl1, h1], h2, ?_⟩
          intro j hj
          simp only at hj ⊢
          rw [hrd2, if_neg (by omega), hrd1, if_pos ⟨hj, by omega⟩]
          exact g3 j (by omega)

/-- C14: a copy assignment `dst = src` with `src.Size() <= dst.Capacity()` that
fails partway should leave `dst` valid.  When `dst` is longer than `src` the
code first destroys the elements of `dst` from index `src.Size()` on, then
assigns, and sets `size_` only at the end.  With `dst = {1, 99, 2}` and
`src = {7}`, the assignment of 7 raising: the exception leaves `dst` with
`Size() == 3` while its cells 1 and 2 are destroyed, so two destroyed slots
are counted as live. -/
theorem copy_assign_shrinking_failure_invalid :
    sampleThree.Valid ∧ oneSeven.Valid ∧ oneSeven.Size ≤ sampleThree.Capacity ∧
    sampleThree.CopyAssign (throwingElem 7) (throwingElem 7).copyThrows 900 oneSeven false
      = .raised (Vector.mk (RawMemory.mk 300 4 [some 1, none, none, none]) 3) [] ∧
    ¬ (Vector.mk (RawMemory.mk 300 4 [some 1, none, none, none]) 3 : Vector Nat).Valid ∧
    readCell [some 1, none, none, (none : Option Nat)] 1 = none := by
  refine ⟨by decide, by decide, by decide, rfl, by decide, rfl⟩

theorem ofCapacityOn_satisfied (A : Allocator) (p n : Nat) (h : A.Satisfies n) :
    (RawMemory.ofCapacityOn A p n : Option (RawMemory α)) = some (RawMemory.ofCapacity p n) := by
  obtain ⟨hs, hfit, hg⟩ := h
  have hb : A.bytes n = n * A.sizeOf := by
    unfold Allocator.bytes
    exact Nat.mod_eq_of_lt hfit
  unfold RawMemory.ofCapacityOn RawMemory.ofCapacity RawMemory.Allocate
  by_cases h0 : n = 0
  · subst h0
    simp
  · rw [if_neg h0, if_pos hg, hb, Nat.mul_div_cancel _ hs, if_pos h0]

theorem ReserveOn_eq_Reserve (A : Allocator) (E : ElemType α) (p : Nat) (v : Vector α) (n : Nat)
    (h : n ≤ v.Capacity ∨ A.Satisfies n) : v.ReserveOn A E p n = v.Reserve E p n := by
  unfold Vector.ReserveOn Vector.Reserve
  by_cases hle : n ≤ v.data_.Capacity
  · rw [if_pos hle, if_pos hle]
  · rw [if_neg hle, if_neg hle]
    have hsat : A.Satisfies n := by
      rcases h with h | h
      · exact absurd h hle
      · exact h
    rw [ofCapacityOn_satisfied A p n hsat]

theorem ReserveOn_refused (A : Allocator) (E : ElemType α) (p : Nat) (v : Vector α) (n : Nat)
    (hn : v.Capacity < n) (hg : A.grants (A.bytes n) = false) :
    v.ReserveOn A E p n = .raised v [] := by
  simp only [Vector.Capacity] at hn
  have h0 : n ≠ 0 := by omega
  simp [Vector.ReserveOn, not_le.2 hn, RawMemory.ofCapacityOn, h0, hg]

theorem ResizeOn_eq_Resize (debug : Bool) (A : Allocator) (E : ElemType α) (p : Nat)
    (v : Vector α) (n : Nat) (dflt : Option α) (h : n ≤ v.Capacity ∨ A.Satisfies n) :
    v.ResizeOn debug A E p n dflt = v.Resize debug E p n dflt := by
  unfold Vector.ResizeOn Vector.Resize
  rw [ReserveOn_eq_Reserve A E p v n h]

theorem ResizeOn_refused (debug : Bool) (A : Allocator) (E : ElemType α) (p : Nat)
    (v : Vector α) (n : Nat) (dflt : Option α) (hv : v.Size ≤ v.Capacity)
    (hn : v.Capacity < n) (hg : A.grants (A.bytes n) = false) :
    v.ResizeOn debug A E p n dflt = some (.raised v []) := by
  simp only [Vector.Size] at hv
  have hn' := hn
  simp only [Vector.Capacity, RawMemory.Capacity] at hn' hv
  unfold Vector.ResizeOn
  rw [if_neg (by omega), ReserveOn_refused A E p v n hn hg]

/-- Effect of a Resize that gets past the assertion of `operator[]`, in either
build. -/
theorem Resize_holds_any (debug : Bool) (E : ElemType α) (p : Nat) (v : Vector α)
    (xs : List α) (n : Nat) (d : α) (hv : v.Holds xs) (hok : CopiesSucceed E xs)
    (hassert : debug = false ∨ n ≠ v.Size ∨ v.Size ≠ v.Capacity) :
    ∃ w, v.Resize debug E p n (some d) = some (.returned w ()) ∧ w.size_ = n ∧
      w.data_.capacity_ = max v.data_.capacity_ n ∧
      w.Holds (xs.take n ++ List.replicate (n - v.size_) d) := by
  obtain ⟨w, hw, hrest⟩ := Resize_holds E p v xs n d hv hok
  refine ⟨w, ?_, hrest⟩
  cases debug with
  | false => exact hw
  | true =>
    have hle : v.Size ≤ v.Capacity := by
      simp only [Vector.Size, Vector.Capacity, RawMemory.Capacity]
      exact hv.2.2.1
    cases hres : v.Resize true E p n (some d) with
    | none =>
      have := (Resize_assertion_fails_iff E p v n (some d) hle).1 hres
      rcases hassert with h | h | h
      · cases h
      · exact absurd this.1 h
      · exact absurd this.2 h
    | some o =>
      have h2 := Resize_debug_eq E p v n (some d) o hres
      rw [hw] at h2
      rw [← h2]


/-- C6 (amended): on a well-formed vector none of whose element copies raises,
`Reserve(n)` with `n <= Capacity()` returns leaving the vector as it is.  With
`n > Capacity()`: when `operator new` satisfies the request for `n` objects
(`n * sizeof(T)` does not wrap and the block is granted) it returns a vector of
capacity exactly `n`, of the same size and with the same elements in the same
order; when `operator new` raises `std::bad_alloc` the exception escapes and
the vector is left as it was. -/
theorem reserve_on_spec (A : Allocator) (E : ElemType α) (p : Nat) (v : Vector α)
    (xs : List α) (n : Nat) (hv : v.Holds xs) (hok : CopiesSucceed E xs) :
    (n ≤ v.Capacity → v.ReserveOn A E p n = .returned v ()) ∧
    (v.Capacity < n → A.Satisfies n →
      ∃ w, v.ReserveOn A E p n = .returned w () ∧ w.Capacity = n ∧
        w.Size = v.Size ∧ w.elems = v.elems ∧ w.Holds xs) ∧
    (v.Capacity < n → A.grants (A.bytes n) = false → v.ReserveOn A E p n = .raised v []) := by
  refine ⟨?_, ?_, ?_⟩
  · intro hn
    simp only [Vector.Capacity] at hn
    simp [Vector.ReserveOn, hn]
  · intro hn hsat
    obtain ⟨w, hw, hh, hc, hs⟩ := Reserve_holds E p v xs n hv hok
    refine ⟨w, by rw [ReserveOn_eq_Reserve A E p v n (Or.inr hsat), hw], ?_, hs, ?_, hh⟩
    · simp only [Vector.Capacity, RawMemory.Capacity] at hn ⊢
      omega
    · rw [hh.2.2.2, hv.2.2.2]
  · intro hn hg
    exact ReserveOn_refused A E p v n hn hg

theorem reserve_on_spec_witness :
    fullPair.Holds [1, 2] ∧ CopiesSucceed intElem [1, 2] ∧
    fullPair.Capacity < 5 ∧ boundedHeap.Satisfies 5 ∧
    ((5 ≤ fullPair.Capacity → fullPair.ReserveOn boundedHeap intElem 200 5
        = .returned fullPair ()) ∧
     (fullPair.Capacity < 5 → boundedHeap.Satisfies 5 →
      ∃ w, fullPair.ReserveOn boundedHeap intElem 200 5 = .returned w () ∧ w.Capacity = 5 ∧
        w.Size = fullPair.Size ∧ w.elems = fullPair.elems ∧ w.Holds [1, 2]) ∧
     (fullPair.Capacity < 5 → boundedHeap.grants (boundedHeap.bytes 5) = false →
      fullPair.ReserveOn boundedHeap intElem 200 5 = .raised fullPair [])) ∧
    fullPair.ReserveOn boundedHeap intElem 200 5
      = .returned (Vector.mk (RawMemory.mk 200 5 [some 1, some 2, none, none, none]) 2) () :=
  ⟨by decide, fun _ _ => rfl, by decide, by decide,
   reserve_on_spec boundedHeap intElem 200 fullPair [1, 2] 5 (by decide) (fun _ _ => rfl),
   by decide⟩

/-- C6, as stated, fails where the allocation does: on a machine with
`sizeof(T) == 4` that grants at most `2^47` bytes, `Reserve(2^61)` on the
vector `{1, 2}`, none of whose element operations fails, asks `operator new`
for `2^63` bytes, `std::bad_alloc` escapes, and the capacity stays 2 instead of
becoming `2^61`. -/
theorem reserve_bad_alloc_counterexample :
    fullPair.Holds [1, 2] ∧ CopiesSucceed intElem [1, 2] ∧
    ¬ (2 ^ 61 ≤ fullPair.Capacity) ∧ boundedHeap.bytes (2 ^ 61) = 2 ^ 63 ∧
    fullPair.ReserveOn boundedHeap intElem 200 (2 ^ 61) = .raised fullPair [] ∧
    ¬ ∃ w, fullPair.ReserveOn boundedHeap intElem 200 (2 ^ 61) = .returned w () ∧
        w.Capacity = 2 ^ 61 := by
  have hr : fullPair.ReserveOn boundedHeap intElem 200 (2 ^ 61) = .raised fullPair [] :=
    ReserveOn_refused boundedHeap intElem 200 fullPair (2 ^ 61) (by decide) (by decide)
  refine ⟨by decide, fun _ _ => rfl, by decide, by decide, hr, ?_⟩
  rintro ⟨w, hw, _⟩
  rw [hr] at hw
  cases hw

/-- What `Reserve` does when `n * sizeof(T)` wraps: on the same machine,
`Reserve(2^62)` on the empty vector asks `operator new` for 0 bytes, and the
vector records the capacity `2^62` over a block in which no object fits. -/
theorem reserve_wrapped_request :
    boundedHeap.bytes (2 ^ 62) = 0 ∧
    (Vector.empty : Vector Nat).ReserveOn boundedHeap intElem 200 (2 ^ 62)
      = .returned (Vector.mk (RawMemory.mk 200 (2 ^ 62) []) 0) () := by
  refine ⟨by decide, ?_⟩
  have h1 : ¬ (2 ^ 62 ≤ (Vector.empty : Vector Nat).data_.Capacity) := by decide
  have h2 : (RawMemory.ofCapacityOn boundedHeap 200 (2 ^ 62) : Option (RawMemory Nat))
      = some (RawMemory.mk 200 (2 ^ 62) []) := by
    have hb : boundedHeap.bytes (2 ^ 62) = 0 := by decide
    have h0 : (2 ^ 62 : Nat) ≠ 0 := by decide
    simp only [RawMemory.ofCapacityOn, if_neg h0, hb]
    rfl
  unfold Vector.ReserveOn
  rw [if_neg h1, h2]
  rfl

/-- C11 (amended): on a well-formed vector with elements `xs` and size `s`,
when no copy and no value-initialisation raises, `Resize(n)` returns a vector
of size `n` whose elements below `min(s, n)` are those of before, whose
elements at the indices of `[s, n)` have the value-initialised value `d`, and
whose capacity is `max(old capacity, n)`, provided that `operator new`
satisfies the request for `n` objects when `n > Capacity()`, and leaving aside
the call with `n == s == Capacity()` in a build with assertions.  When
`n > Capacity()` and `operator new` raises `std::bad_alloc`, the exception
escapes and the vector is left as it was. -/
theorem resize_on_spec (debug : Bool) (A : Allocator) (E : ElemType α) (p : Nat)
    (v : Vector α) (xs : List α) (n : Nat) (d : α)
    (hv : v.Holds xs) (hok : CopiesSucceed E xs) :
    ((n ≤ v.Capacity ∨ A.Satisfies n) →
     (debug = false ∨ n ≠ v.Size ∨ v.Size ≠ v.Capacity) →
      ∃ w, v.ResizeOn debug A E p n (some d) = some (.returned w ()) ∧ w.Size = n ∧
        (∀ j, j < min v.Size n → readCell w.data_.cells j = readCell v.data_.cells j) ∧
        (∀ j, v.Size ≤ j → j < n → readCell w.data_.cells j = some d) ∧
        w.Capacity = max v.Capacity n ∧
        w.elems = (xs.take n ++ List.replicate (n - v.Size) d).map some) ∧
    (v.Capacity < n → A.grants (A.bytes n) = false →
      v.ResizeOn debug A E p n (some d) = some (.raised v [])) := by
  constructor
  · intro halloc hassert
    obtain ⟨w, hw, hs, hc, hh⟩ := Resize_holds_any debug E p v xs n d hv hok hassert
    obtain ⟨h1, h2, h3, h4⟩ := (holds_iff v xs).1 hv
    simp only [Vector.Size]
    refine ⟨w, by rw [ResizeOn_eq_Resize debug A E p v n (some d) halloc, hw], hs, ?_, ?_, hc,
      hh.2.2.2⟩
    · intro j hj
      rw [holds_read hh j (by omega), h4 j (by omega),
        List.getElem?_append_left (by simp only [List.length_take]; omega),
        List.getElem?_take, if_pos (by omega)]
    · intro j hj1 hj2
      rw [holds_read hh j (by omega), List.getElem?_append_right
        (by simp only [List.length_take]; omega), List.getElem?_replicate]
      simp only [List.length_take]
      rw [if_pos (by omega)]
  · intro hn hg
    exact ResizeOn_refused debug A E p v n (some d)
      (by simp only [Vector.Size, Vector.Capacity, RawMemory.Capacity]; exact hv.2.2.1) hn hg

theorem resize_on_spec_witness :
    sampleThree.Holds [1, 99, 2] ∧ CopiesSucceed intElem [1, 99, 2] ∧
    boundedHeap.Satisfies 5 ∧ (5 ≠ sampleThree.Size) ∧
    (((5 ≤ sampleThree.Capacity ∨ boundedHeap.Satisfies 5) →
     (true = false ∨ 5 ≠ sampleThree.Size ∨ sampleThree.Size ≠ sampleThree.Capacity) →
      ∃ w, sampleThree.ResizeOn true boundedHeap intElem 500 5 (some 0)
          = some (.returned w ()) ∧ w.Size = 5 ∧
        (∀ j, j < min sampleThree.Size 5 →
          readCell w.data_.cells j = readCell sampleThree.data_.cells j) ∧
        (∀ j, sampleThree.Size ≤ j → j < 5 → readCell w.data_.cells j = some 0) ∧
        w.Capacity = max sampleThree.Capacity 5 ∧
        w.elems = ([1, 99, 2].take 5 ++ List.replicate (5 - sampleThree.Size) 0).map some) ∧
    (sampleThree.Capacity < 5 → boundedHeap.grants (boundedHeap.bytes 5) = false →
      sampleThree.ResizeOn true boundedHeap intElem 500 5 (some 0)
        = some (.raised sampleThree []))) ∧
    sampleThree.ResizeOn true boundedHeap intElem 500 5 (some 0)
      = some (.returned
          (Vector.mk (RawMemory.mk 500 5 [some 1, some 99, some 2, some 0, some 0]) 5) ()) :=
  ⟨by decide, fun _ _ => rfl, by decide, by decide,
   resize_on_spec true boundedHeap intElem 500 sampleThree [1, 99, 2] 5 0 (by decide)
     (fun _ _ => rfl),
   by decide⟩

/-- C11, as stated, fails in two places.  Where the allocation fails: on a
machine with `sizeof(T) == 4` that grants at most `2^47` bytes, `Resize(2^61)`
on `{1, 99, 2}`, none of whose element operations fails, lets `std::bad_alloc`
escape and the size stays 3.  And where the assertion of `operator[]` fails:
with assertions compiled in, `Resize(2)` on the full vector `{1, 2}` stops at
the assertion instead of returning. -/
theorem resize_counterexample :
    sampleThree.Holds [1, 99, 2] ∧ CopiesSucceed intElem [1, 99, 2] ∧
    sampleThree.ResizeOn false boundedHeap intElem 500 (2 ^ 61) (some 0)
      = some (.raised sampleThree []) ∧
    (¬ ∃ w, sampleThree.ResizeOn false boundedHeap intElem 500 (2 ^ 61) (some 0)
        = some (.returned w ()) ∧ w.Size = 2 ^ 61) ∧
    fullPair.Holds [1, 2] ∧
    fullPair.ResizeOn true boundedHeap intElem 500 2 (some 0) = none ∧
    (¬ ∃ w, fullPair.ResizeOn true boundedHeap intElem 500 2 (some 0)
        = some (.returned w ()) ∧ w.Size = 2) := by
  have hr : sampleThree.ResizeOn false boundedHeap intElem 500 (2 ^ 61) (some 0)
      = some (.raised sampleThree []) :=
    ResizeOn_refused false boundedHeap intElem 500 sampleThree (2 ^ 61) (some 0)
      (by decide) (by decide) (by decide)
  have hn : fullPair.ResizeOn true boundedHeap intElem 500 2 (some 0) = none := by decide
  refine ⟨by decide, fun _ _ => rfl, hr, ?_, by decide, hn, ?_⟩
  · rintro ⟨w, hw, _⟩
    rw [hr] at hw
    cases hw
  · rintro ⟨w, hw, _⟩
    rw [hn] at hw
    cases hw


/-! ## Independent storage along a run of mutations -/

end Tools
